import Mathlib

/-!
Verification of the monome-deno OSC client core.

This file shallowly embeds the TypeScript sources of the repository
(`src/lib/osc.ts`, `src/lib/serialosc.ts`, `src/lib/device.ts`,
`src/lib/grid.ts`, `src/lib/arc.ts`) into Lean and proves properties of
the embedded functions.

Modelling conventions:
* Byte buffers (`Uint8Array`) are modelled as `List ℕ` of byte values.
* JavaScript strings are identified with their UTF-8 byte sequences
  (`TextEncoder.encode` / `TextDecoder.decode` are the identity of the
  model); where string contents never reach the wire (serialosc device
  ids, addresses used as event keys) they stay Lean `String`s.
* JavaScript numbers are IEEE-754 doubles.  The model uses `Option ℚ`:
  `some q` is a finite double of exact value `q`, `none` collapses the
  non-finite doubles (NaN and the infinities), which never occur in the
  protocol traffic this client exchanges.  `Number.isInteger` becomes
  "the denominator is 1".
* `DataView.setFloat32` narrows a double to binary32.  `roundF32bits`
  implements IEEE round-to-nearest-even ties-to-even narrowing on exact
  rational values and `f32val` is the value of a binary32 bit pattern
  (`none` for the exponent-255 patterns, i.e. NaN/∞).
-/

attribute [local semireducible] Rat.mul Rat.add Rat.sub Rat.inv

namespace Monome

/-! ## OSC codec (src/lib/osc.ts) -/

/-- Model of a JavaScript number: `some q` is the finite double with exact
value `q`; `none` collapses NaN and the infinities. -/
abbrev JSNum := Option ℚ

/-- Values that the OSC encoder/decoder exchanges: JavaScript numbers and
strings (strings identified with their UTF-8 bytes). -/
inductive JSVal where
  | num (v : JSNum)
  | str (s : List ℕ)
deriving DecidableEq, Repr

/-- Model of `Number.isInteger` on the finite-double model: NaN/∞ are not
integers, a finite value is an integer iff its denominator is 1. -/
def isIntegerNum : JSNum → Bool
  | none => false
  | some q => q.den = 1

/-- Model of `Math.ceil((len + 1) / 4) * 4`, the padded size of a
null-terminated string of byte length `len` (`alignedStringSize`). -/
def alignedSize (len : ℕ) : ℕ := ((len + 1) + 3) / 4 * 4

/-- Model of writing the byte list `xs` into `buf` starting at offset
`off` (`Uint8Array.set` / single-index stores); all stores issued by the
encoder are in bounds of the preallocated buffer. -/
def storeBytes (buf : List ℕ) (off : ℕ) (xs : List ℕ) : List ℕ :=
  buf.take off ++ xs ++ buf.drop (off + xs.length)

/-- Big-endian byte quadruple of the low 32 bits of a word, as written by
`DataView.setInt32`/`setFloat32` with `littleEndian = false`. -/
def bytesBE4 (u : ℕ) : List ℕ :=
  [u / 2 ^ 24 % 256, u / 2 ^ 16 % 256, u / 2 ^ 8 % 256, u % 256]

/-- Unsigned 32-bit pattern of an integer, the `ToInt32` conversion used
by `DataView.setInt32`. -/
def uint32OfInt (n : ℤ) : ℕ := (n % 2 ^ 32).toNat

/-- Signed value of an unsigned 32-bit pattern, as returned by
`DataView.getInt32`. -/
def int32OfUint (u : ℕ) : ℤ := if u < 2 ^ 31 then (u : ℤ) else (u : ℤ) - 2 ^ 32

/-- Round a rational to the nearest integer, ties to even (the rounding
mode of IEEE-754 narrowing). -/
def roundHalfEven (q : ℚ) : ℤ :=
  let f := ⌊q⌋
  let r := q - f
  if r < 1 / 2 then f
  else if 1 / 2 < r then f + 1
  else if f % 2 = 0 then f else f + 1

/-- Binary exponent of a positive rational: the largest `e` in
`[-149, 127]` with `2 ^ e ≤ a`, or `-150` when `a < 2 ^ (-149)`. -/
def f32exp (a : ℚ) : ℤ :=
  match (List.range 277).find? (fun i => (2 : ℚ) ^ ((127 : ℤ) - i) ≤ a) with
  | some i => 127 - i
  | none => -150

/-- Bit pattern stored by `DataView.setFloat32` for a finite double of
exact value `q`: IEEE binary32 round-to-nearest, ties to even. -/
def roundF32bits (q : ℚ) : ℕ :=
  if q = 0 then 0
  else
    let s : ℕ := if q < 0 then 2 ^ 31 else 0
    let a : ℚ := |q|
    let e : ℤ := f32exp a
    if 128 ≤ e then s + 0x7F800000
    else if e < -126 then
      let m : ℤ := roundHalfEven (a * (2 : ℚ) ^ (149 : ℕ))
      if (2 : ℤ) ^ 23 ≤ m then s + 2 ^ 23 else s + m.toNat
    else
      let m : ℤ := roundHalfEven (a * (2 : ℚ) ^ ((23 : ℤ) - e))
      if m = (2 : ℤ) ^ 24 then
        if 128 ≤ e + 1 then s + 0x7F800000
        else s + (e + 1 + 127).toNat * 2 ^ 23
      else s + (e + 127).toNat * 2 ^ 23 + (m - (2 : ℤ) ^ 23).toNat

/-- Exact value of a binary32 bit pattern, as widened to a double by
`DataView.getFloat32`; `none` for exponent-255 patterns (NaN/∞). -/
def f32val (bits : ℕ) : JSNum :=
  let s : ℕ := bits / 2 ^ 31 % 2
  let e : ℕ := bits / 2 ^ 23 % 256
  let m : ℕ := bits % 2 ^ 23
  if e = 255 then none
  else
    let mag : ℚ :=
      if e = 0 then (m : ℚ) * (2 : ℚ) ^ (-149 : ℤ)
      else ((2 ^ 23 + m : ℕ) : ℚ) * (2 : ℚ) ^ ((e : ℤ) - 150)
    some (if s = 1 then -mag else mag)

/-- Bit pattern stored by `DataView.setFloat32` for a JavaScript number:
finite values are narrowed by rounding, the collapsed non-finite value
stores the canonical NaN pattern. -/
def f32bitsOfNum : JSNum → ℕ
  | none => 0x7FC00000
  | some q => roundF32bits q

/-- Model of `OscEncoder.writeString`: store the string bytes, store the
null terminator, return the buffer and the offset advanced to the next
4-byte boundary. -/
def writeString (buf : List ℕ) (off : ℕ) (s : List ℕ) : List ℕ × ℕ :=
  let b1 := storeBytes buf off s
  let b2 := storeBytes b1 (off + s.length) [0]
  (b2, off + alignedSize s.length)

/-- Model of `OscEncoder.writeInt32`: big-endian store of the `ToInt32`
pattern of the (integral) argument. -/
def writeInt32 (buf : List ℕ) (off : ℕ) (n : ℤ) : List ℕ × ℕ :=
  (storeBytes buf off (bytesBE4 (uint32OfInt n)), off + 4)

/-- Model of `OscEncoder.writeFloat32`: big-endian store of the binary32
pattern of the argument. -/
def writeFloat32 (buf : List ℕ) (off : ℕ) (v : JSNum) : List ℕ × ℕ :=
  (storeBytes buf off (bytesBE4 (f32bitsOfNum v)), off + 4)

/-- Type-tag character assigned to an argument by `OscEncoder.encode`:
`i` (105) for numbers that are integers, `f` (102) otherwise, `s` (115)
for strings. -/
def tagOf : JSVal → ℕ
  | .num v => if isIntegerNum v then 105 else 102
  | .str _ => 115

/-- Type-tag string built by `OscEncoder.encode`: a leading `,` (44)
followed by one tag character per argument. -/
def typeTagsOf (args : List JSVal) : List ℕ :=
  44 :: args.map tagOf

/-- Payload size contributed by one argument: 4 bytes for a number,
padded string size for a string. -/
def argSize : JSVal → ℕ
  | .num _ => 4
  | .str s => alignedSize s.length

/-- Total byte size computed by `OscEncoder.encode` before writing. -/
def encodeSize (address : List ℕ) (args : List JSVal) : ℕ :=
  alignedSize address.length + alignedSize (typeTagsOf args).length
    + (args.map argSize).sum

/-- Model of the argument-writing loop of `OscEncoder.encode`. -/
def writeArgs (args : List JSVal) (acc : List ℕ × ℕ) : List ℕ × ℕ :=
  args.foldl
    (fun bo a =>
      match a with
      | .num v =>
          if isIntegerNum v then
            writeInt32 bo.1 bo.2 (v.getD 0).num
          else
            writeFloat32 bo.1 bo.2 v
      | .str s => writeString bo.1 bo.2 s)
    acc

/-- Model of `OscEncoder.encode`: compute type tags and total size,
allocate a zero buffer, then write address, type tags and arguments in
order. -/
def encode (address : List ℕ) (args : List JSVal) : List ℕ :=
  let typeTags := typeTagsOf args
  let buf0 := List.replicate (encodeSize address args) 0
  let bo1 := writeString buf0 0 address
  let bo2 := writeString bo1.1 bo1.2 typeTags
  (writeArgs args bo2).1

/-- Decode failures: the only abnormal exit of `OscDecoder.decode` is the
`RangeError` thrown by `DataView.getInt32`/`getFloat32` when the 4-byte
read would run past the end of the buffer. -/
inductive DecErr where
  | rangeError
deriving DecidableEq, Repr

instance {e a : Type} [DecidableEq e] [DecidableEq a] : DecidableEq (Except e a)
  | .error x, .error y =>
      if h : x = y then .isTrue (by rw [h])
      else .isFalse (fun hc => h (by cases hc; rfl))
  | .error _, .ok _ => .isFalse (fun hc => by cases hc)
  | .ok _, .error _ => .isFalse (fun hc => by cases hc)
  | .ok x, .ok y =>
      if h : x = y then .isTrue (by rw [h])
      else .isFalse (fun hc => h (by cases hc; rfl))

/-- Model of `OscDecoder.readString`: scan forward to the first null byte
(or the end of the buffer), return the scanned bytes and the offset
advanced to the next 4-byte boundary. -/
def readString (data : List ℕ) (off : ℕ) : List ℕ × ℕ :=
  let value := (data.drop off).takeWhile (fun b => b ≠ 0)
  (value, off + alignedSize value.length)

/-- Model of `OscDecoder.readInt32`: a 4-byte big-endian read, throwing
`RangeError` when it would run past the end of the buffer. -/
def readInt32 (data : List ℕ) (off : ℕ) : Except DecErr (ℤ × ℕ) :=
  if off + 4 ≤ data.length then
    .ok (int32OfUint
      (data.getD off 0 * 2 ^ 24 + data.getD (off + 1) 0 * 2 ^ 16
        + data.getD (off + 2) 0 * 2 ^ 8 + data.getD (off + 3) 0), off + 4)
  else .error .rangeError

/-- Model of `OscDecoder.readFloat32`: a 4-byte big-endian read widened
from binary32, throwing `RangeError` past the end of the buffer. -/
def readFloat32 (data : List ℕ) (off : ℕ) : Except DecErr (JSNum × ℕ) :=
  if off + 4 ≤ data.length then
    .ok (f32val
      (data.getD off 0 * 2 ^ 24 + data.getD (off + 1) 0 * 2 ^ 16
        + data.getD (off + 2) 0 * 2 ^ 8 + data.getD (off + 3) 0), off + 4)
  else .error .rangeError

/-- Model of the tag-directed argument loop of `OscDecoder.decode`:
`i` reads an int32, `f` a float32, `s` a padded string; any other tag
character is skipped without consuming payload bytes. -/
def parseArgs (data : List ℕ) : List ℕ → ℕ → Except DecErr (List JSVal)
  | [], _ => .ok []
  | t :: rest, off =>
    if t = 105 then do
      let (v, off') ← readInt32 data off
      let tl ← parseArgs data rest off'
      pure (JSVal.num (some (v : ℚ)) :: tl)
    else if t = 102 then do
      let (v, off') ← readFloat32 data off
      let tl ← parseArgs data rest off'
      pure (JSVal.num v :: tl)
    else if t = 115 then do
      let (s, off') := readString data off
      let tl ← parseArgs data rest off'
      pure (JSVal.str s :: tl)
    else
      parseArgs data rest off

/-- Model of `OscDecoder.decode`: read the address; absent a leading `,`
after it, return the address with no arguments; otherwise read the type
tags and parse the declared arguments. -/
def decode (data : List ℕ) : Except DecErr (List ℕ × List JSVal) :=
  let rs := readString data 0
  if data.length ≤ rs.2 ∨ data.getD rs.2 0 ≠ 44 then
    .ok (rs.1, [])
  else
    let ts := readString data rs.2
    do
      let args ← parseArgs data (ts.1.drop 1) ts.2
      pure (rs.1, args)

/-! ## Structure of encoded messages

`OscEncoder.encode` preallocates an exact-size zero buffer and writes the
padded chunks sequentially; the lemmas below turn that imperative pattern
into a concatenation of per-chunk byte lists. -/

/-- Padded wire form of a null-terminated string: the bytes, the null
terminator, then zero padding to the next 4-byte boundary. -/
def pchunk (s : List ℕ) : List ℕ :=
  s ++ [0] ++ List.replicate (alignedSize s.length - (s.length + 1)) 0

/-- Payload chunk written for one argument by the encoder's write loop. -/
def argChunk : JSVal → List ℕ
  | .num v =>
      if isIntegerNum v then bytesBE4 (uint32OfInt (v.getD 0).num)
      else bytesBE4 (f32bitsOfNum v)
  | .str s => pchunk s

/-- Conditions under which an argument value survives the wire: integral
numbers must fit in an int32, non-integral numbers must be exactly
representable in binary32, strings must be free of null bytes.  NaN and
the infinities are excluded (in JavaScript `NaN !== NaN`, so no decoded
message containing NaN equals its source). -/
def goodArg : JSVal → Bool
  | .num none => false
  | .num (some q) =>
      if q.den = 1 then
        decide (-(2 ^ 31) ≤ q.num) && decide (q.num < 2 ^ 31)
      else
        decide (roundF32bits q < 2 ^ 32)
          && decide (f32val (roundF32bits q) = some q)
  | .str s => s.all (fun b => b ≠ 0)

/-- Wire form of a message whose final declared argument's payload is cut
short: padded address, padded type-tag string declaring the arguments
`args` plus one final tag `t`, the payload chunks of `args`, and then
only `payload` where the final argument's payload should start. -/
def truncBuf (address : List ℕ) (args : List JSVal) (t : ℕ)
    (payload : List ℕ) : List ℕ :=
  pchunk address ++ pchunk (44 :: (args.map tagOf ++ [t]))
    ++ (args.map argChunk).flatten ++ payload

/-! ## Device session handshake (src/lib/device.ts, `Device.start`)

The session state tracked by `Device.start`: the captured `initMsgs`
array (the acknowledgments still pending), the captured `sentSysInfo`
guard, the device fields the `/sys/*` handlers assign, the `connected`
flag, the events emitted on the device emitter, and the addresses sent
to the device.  The listener-table effects of `removeListeners` /
`addListeners` (no-ops in the `Device` base class) are modelled with the
receiver state further below. -/
structure DevState where
  initMsgs : List String
  sentSysInfo : Bool
  connected : Bool
  events : List String
  sent : List String
  id : String
  sizeX : ℤ
  sizeY : ℤ
  rotation : ℤ
  port : ℤ
  host : String
  pfx : String
deriving DecidableEq, Repr

/-- Inbound `/sys/*` messages a running session dispatches, one
constructor per handler registered in `Device.start` (`pfx` stands for
the `/sys/prefix` message). -/
inductive DevMsg where
  | sysId (i : String)
  | size (x y : ℤ)
  | rotation (r : ℤ)
  | connect
  | disconnect
  | port (p : ℤ)
  | host (h : String)
  | pfx (p : String)
deriving DecidableEq, Repr

/-- Initial contents of the `initMsgs` array in `Device.start`. -/
def initialInitMsgs : List String :=
  ["/sys/host", "/sys/port", "/sys/prefix", "/sys/rotation", "/sys/size"]

/-- Model of `receiveInitMsg` in `Device.start`: return immediately when
connected; splice the message out of `initMsgs`; on empty, set the
connected flag and emit "initialized"; send `/sys/host` once the port
ack arrived while the host ack is pending; send `/sys/info` exactly once
when both port and host acks arrived. -/
def receiveInitMsg (s : DevState) (msg : String) : DevState :=
  if s.connected then s
  else
    let remaining := s.initMsgs.erase msg
    let s1 :=
      if remaining.length = 0 then
        { s with
            initMsgs := remaining
            connected := true
            events := s.events ++ ["initialized"] }
      else { s with initMsgs := remaining }
    let s2 :=
      if !remaining.contains "/sys/port" && remaining.contains "/sys/host" then
        { s1 with sent := s1.sent ++ ["/sys/host"] }
      else s1
    if !s.sentSysInfo && !remaining.contains "/sys/port"
        && !remaining.contains "/sys/host" then
      { s2 with sentSysInfo := true, sent := s2.sent ++ ["/sys/info"] }
    else s2

/-- Model of a session's reaction to one inbound `/sys/*` message: the
handlers registered in `Device.start` (field assignment, then the init
tracker for tracked acks; `/sys/connect` and `/sys/disconnect` toggle
the flag and emit their events; `/sys/prefix` also swaps prefix-based
listeners, modelled separately with the receiver state). -/
def devStep (s : DevState) (m : DevMsg) : DevState :=
  match m with
  | .sysId i => { s with id := i }
  | .size x y => receiveInitMsg { s with sizeX := x, sizeY := y } "/sys/size"
  | .rotation r => receiveInitMsg { s with rotation := r } "/sys/rotation"
  | .connect => { s with connected := true, events := s.events ++ ["connected"] }
  | .disconnect =>
      { s with connected := false, events := s.events ++ ["disconnected"] }
  | .port p => receiveInitMsg { s with port := p } "/sys/port"
  | .host h => receiveInitMsg { s with host := h } "/sys/host"
  | .pfx p => receiveInitMsg { s with pfx := p } "/sys/prefix"

/-- Session state right after `Device.start` ran: all five acks pending,
`/sys/info` not yet sent, not connected, `/sys/port` sent. -/
def devInit : DevState :=
  { initMsgs := initialInitMsgs, sentSysInfo := false, connected := false,
    events := [], sent := ["/sys/port"], id := "", sizeX := 0, sizeY := 0,
    rotation := 0, port := 0, host := "localhost", pfx := "/monome" }

/-- Run a fresh session over a list of inbound messages. -/
def devRun (msgs : List DevMsg) : DevState :=
  msgs.foldl devStep devInit

/-- Tracked acknowledgment address of a message, `none` for messages the
init tracker never sees. -/
def ackAddr : DevMsg → Option String
  | .size _ _ => some "/sys/size"
  | .rotation _ => some "/sys/rotation"
  | .port _ => some "/sys/port"
  | .host _ => some "/sys/host"
  | .pfx _ => some "/sys/prefix"
  | _ => none

/-- Whether a message is one of the five tracked acknowledgments. -/
def isAck (m : DevMsg) : Bool := (ackAddr m).isSome

/-- Projection of a session state to the fields the init tracker reads
and writes (the "initialized" count stands for the emitted events). -/
structure InitSt where
  initMsgs : List String
  sentSysInfo : Bool
  connected : Bool
  initCount : ℕ
deriving DecidableEq, Repr

/-- The init tracker `receiveInitMsg` on the projected state. -/
def iReceive (t : InitSt) (msg : String) : InitSt :=
  if t.connected then t
  else
    let remaining := t.initMsgs.erase msg
    let t1 :=
      if remaining.length = 0 then
        { t with
            initMsgs := remaining
            connected := true
            initCount := t.initCount + 1 }
      else { t with initMsgs := remaining }
    if !t.sentSysInfo && !remaining.contains "/sys/port"
        && !remaining.contains "/sys/host" then
      { t1 with sentSysInfo := true }
    else t1

/-- Run the projected tracker over a list of ack addresses. -/
def iRun (l : List String) (t : InitSt) : InitSt :=
  l.foldl iReceive t

/-- Projected initial state. -/
def iInit : InitSt := ⟨initialInitMsgs, false, false, 0⟩

/-- Projection map from session states to init-tracker states. -/
def projDev (s : DevState) : InitSt :=
  ⟨s.initMsgs, s.sentSysInfo, s.connected, s.events.count "initialized"⟩

/-! ## Discovery client (src/lib/serialosc.ts, `startOSCReceiver`) -/

/-- Stored device descriptor (`DeviceInfo`): `dtype` is the source's
`type` field. -/
structure DevInfo where
  id : String
  model : String
  host : String
  deviceHost : String
  devicePort : ℤ
  dtype : String
  encoders : Option ℕ
deriving DecidableEq, Repr

/-- Match `pat` against the front of a character list, returning the rest
on success. -/
def matchAt : List Char → List Char → Option (List Char)
  | [], l => some l
  | _ :: _, [] => none
  | p :: ps, c :: cs => if p = c then matchAt ps cs else none

/-- Leftmost occurrence search: the tail after the first position where
`pat` matches, as a JavaScript regex engine scans. -/
def findPat (pat : List Char) : List Char → Option (List Char)
  | [] => matchAt pat []
  | c :: cs =>
    match matchAt pat (c :: cs) with
    | some rest => some rest
    | none => findPat pat cs

/-- After "monome arc": an optional space, then an optional captured
digit (the `" ?(\d)?"` suffix of the source pattern). -/
def arcDigit (rest : List Char) : Option ℕ :=
  let rest2 := match rest with
    | ' ' :: r => r
    | r => r
  match rest2 with
  | d :: _ => if d.isDigit then some (d.toNat - 48) else none
  | [] => none

/-- Model of `model.match(/monome arc ?(\d)?/)`: `none` when the pattern
does not occur, `some none` for a match without captured digit,
`some (some d)` for a match capturing digit `d`. -/
def arcMatch (model : String) : Option (Option ℕ) :=
  match findPat "monome arc".data model.data with
  | none => none
  | some rest => some (arcDigit rest)

/-- Device kind and encoder count assigned by the `/serialosc/device`
handler: a digit match is an arc with that many encoders, a bare match
an arc with 4 encoders, no match a grid. -/
def classify (model : String) : String × Option ℕ :=
  match arcMatch model with
  | some (some d) => ("arc", some d)
  | some none => ("arc", some 4)
  | none => ("grid", none)

/-- Discovery client state: the `devices` array, the events emitted on
the SerialOSC emitter (name, device id, device port), and the addresses
sent to the daemon. -/
structure SerialState where
  devices : List DevInfo
  events : List (String × String × ℤ)
  sent : List String
deriving DecidableEq, Repr

/-- Deduplication predicate of the handlers: `d.id === id &&
d.devicePort === devicePort`. -/
def keyMatches (id : String) (port : ℤ) (d : DevInfo) : Bool :=
  d.id == id && d.devicePort == port

/-- Model of the `/serialosc/device` handler: look up by (id,
devicePort); when absent, classify the model string, store the
descriptor and emit the two add events; when present, do nothing.  The
`host`/`deviceHost` fields copy the client's configured hosts (defaults
here). -/
def announce (s : SerialState) (id model : String) (port : ℤ) : SerialState :=
  match s.devices.find? (keyMatches id port) with
  | some _ => s
  | none =>
      let c := classify model
      let dev : DevInfo :=
        { id := id
          model := model
          host := "localhost"
          deviceHost := "localhost"
          devicePort := port
          dtype := c.1
          encoders := c.2 }
      { s with
          devices := s.devices ++ [dev]
          events := s.events
            ++ [(id ++ ":add", id, port), ("device:add", id, port)] }

/-- Model of the `/serialosc/remove` handler: look up by (id,
devicePort); when found, emit the two remove events (the descriptor is
not deleted from `devices` — there is no removal in the handler); then
re-send `/serialosc/notify` in every case. -/
def removeMsg (s : SerialState) (id : String) (_model : String) (port : ℤ) :
    SerialState :=
  let s1 :=
    match s.devices.find? (keyMatches id port) with
    | some d =>
        { s with events := s.events
            ++ [(d.id ++ ":remove", d.id, d.devicePort),
                ("device:remove", d.id, d.devicePort)] }
    | none => s
  { s1 with sent := s1.sent ++ ["/serialosc/notify"] }

/-- Fresh discovery-client state. -/
def serialInit : SerialState := ⟨[], [], []⟩

/-- Run the discovery client over a list of `/serialosc/device`
announcements `(id, model, devicePort)`. -/
def announceRun (anns : List (String × String × ℤ)) : SerialState :=
  anns.foldl (fun s a => announce s a.1 a.2.1 a.2.2) serialInit

/-- Deduplication key of a stored descriptor. -/
def devKey (d : DevInfo) : String × ℤ := (d.id, d.devicePort)

/-- Number of stored descriptors for a key. -/
def devCount (s : SerialState) (id : String) (port : ℤ) : ℕ :=
  (s.devices.filter (keyMatches id port)).length

/-- Number of "device:add" events emitted for a key. -/
def addCount (s : SerialState) (id : String) (port : ℤ) : ℕ :=
  (s.events.filter
    (fun e => e.1 == "device:add" && e.2.1 == id && e.2.2 == port)).length

/-! ## Receiver subscriptions and prefix change (src/lib/osc.ts
`OscReceiver`, src/lib/grid.ts `Grid`) -/

/-- Subscription state of an `OscReceiver`: the listening flag, socket
presence, and the emitter's listener table in registration order
(handlers named by numeric tags). -/
structure OscRecvState where
  isListening : Bool
  socket : Bool
  listeners : List (String × ℕ)
deriving DecidableEq, Repr

/-- Model of `on(address, handler)`: append to the listener table. -/
def recvOn (r : OscRecvState) (addr : String) (h : ℕ) : OscRecvState :=
  { r with listeners := r.listeners ++ [(addr, h)] }

/-- Model of `OscReceiver.removeListener(address)`: the source body only
logs ("Just log for now…"); the listener table is not modified. -/
def removeListener (r : OscRecvState) (_addr : String) : OscRecvState := r

/-- Model of `OscReceiver.removeAllListeners()`: the source body only
logs; the listener table is not modified. -/
def removeAllListeners (r : OscRecvState) : OscRecvState := r

/-- Model of `OscReceiver.close`: clear the listening flag, close and
release the socket, then call the `removeAllListeners` stub. -/
def recvClose (r : OscRecvState) : OscRecvState :=
  removeAllListeners { r with isListening := false, socket := false }

/-- Handlers a datagram at `addr` is dispatched to: the listeners
registered under exactly that address, in registration order. -/
def dispatchTo (r : OscRecvState) (addr : String) : List ℕ :=
  (r.listeners.filter (fun e => e.1 == addr)).map (fun e => e.2)

/-- One iteration of the receive loop: a datagram is processed only while
the listening flag is set and the socket is open; afterwards the loop
exits without dispatching. -/
def receiveStep (r : OscRecvState) (addr : String) : Option (List ℕ) :=
  if r.isListening && r.socket then some (dispatchTo r addr) else none

/-- Handler tag of the Grid key-press closure. -/
def gridKeyHandler : ℕ := 0

/-- Handler tag of the Grid tilt closure. -/
def gridTiltHandler : ℕ := 1

/-- Prefix-related state of a Grid session: current prefix and its
receiver. -/
structure GridState where
  pfx : String
  recv : OscRecvState
deriving DecidableEq, Repr

/-- Model of `Grid.removeListeners`: calls the receiver's
`removeListener` stub for the two prefix-based addresses. -/
def gridRemoveListeners (g : GridState) : GridState :=
  let r1 := removeListener g.recv (g.pfx ++ "/grid/key")
  let r2 := removeListener r1 (g.pfx ++ "/tilt")
  { g with recv := r2 }

/-- Model of `Grid.addListeners`: register the key and tilt closures
under the current prefix. -/
def gridAddListeners (g : GridState) : GridState :=
  let r1 := recvOn g.recv (g.pfx ++ "/grid/key") gridKeyHandler
  let r2 := recvOn r1 (g.pfx ++ "/tilt") gridTiltHandler
  { g with recv := r2 }

/-- Model of the `/sys/prefix` handler on a Grid session: remove old
prefix listeners (a stub), update the prefix, add listeners under the
new prefix.  (The handler also feeds `/sys/prefix` to the init tracker,
modelled by `devStep`.) -/
def gridPrefixMsg (g : GridState) (p : String) : GridState :=
  gridAddListeners { (gridRemoveListeners g) with pfx := p }

/-- Number of "device:add" notifications one insertion produces for its
own key: the per-id event name `id ++ ":add"` collides with the generic
"device:add" event name exactly when the id is the literal string
"device". -/
def addMult (i : String) : ℕ := if i = "device" then 2 else 1

/-- Invariant of the discovery state: stored keys are unique, and the
number of "device:add" notifications for a key is the per-insertion
multiplicity times the number of stored descriptors for it. -/
def SerialInv (s : SerialState) : Prop :=
  ((s.devices.map devKey).Nodup)
    ∧ ∀ i p, addCount s i p = addMult i * devCount s i p

theorem le_alignedSize (L : ℕ) : L + 1 ≤ alignedSize L := by
  unfold alignedSize; omega

theorem alignedSize_mod4 (L : ℕ) : alignedSize L % 4 = 0 := by
  unfold alignedSize; omega

theorem pchunk_length (s : List ℕ) : (pchunk s).length = alignedSize s.length := by
  have := le_alignedSize s.length
  simp [pchunk]; omega

theorem bytesBE4_length (u : ℕ) : (bytesBE4 u).length = 4 := rfl

theorem argChunk_length (a : JSVal) : (argChunk a).length = argSize a := by
  cases a with
  | num v =>
      by_cases h : isIntegerNum v = true <;> simp [argChunk, argSize, h, bytesBE4_length]
  | str s => simp [argChunk, argSize, pchunk_length]

theorem storeBytes_zeros (pre xs : List ℕ) (k : ℕ) (_h : xs.length ≤ k) :
    storeBytes (pre ++ List.replicate k 0) pre.length xs
      = pre ++ xs ++ List.replicate (k - xs.length) 0 := by
  unfold storeBytes
  rw [List.take_left, List.drop_append, List.drop_replicate]

theorem writeString_zeros (pre s : List ℕ) (k : ℕ) (h : alignedSize s.length ≤ k) :
    writeString (pre ++ List.replicate k 0) pre.length s
      = (pre ++ pchunk s ++ List.replicate (k - alignedSize s.length) 0,
          pre.length + alignedSize s.length) := by
  have hs1 : s.length + 1 ≤ alignedSize s.length := le_alignedSize s.length
  have h1 : storeBytes (pre ++ List.replicate k 0) pre.length s
      = pre ++ s ++ List.replicate (k - s.length) 0 :=
    storeBytes_zeros pre s k (by omega)
  have h2 : storeBytes (pre ++ s ++ List.replicate (k - s.length) 0)
      (pre.length + s.length) [0]
      = (pre ++ s) ++ [0] ++ List.replicate (k - s.length - 1) 0 := by
    have h3 := storeBytes_zeros (pre ++ s) [0] (k - s.length)
      (by simp only [List.length_singleton]; omega)
    simpa [List.append_assoc] using h3
  show (storeBytes (storeBytes (pre ++ List.replicate k 0) pre.length s)
      (pre.length + s.length) [0], pre.length + alignedSize s.length) = _
  rw [h1, h2]
  have hsplit : List.replicate (k - s.length - 1) (0 : ℕ)
      = List.replicate (alignedSize s.length - (s.length + 1)) 0
        ++ List.replicate (k - alignedSize s.length) 0 := by
    rw [← List.replicate_add]
    congr 1
    omega
  rw [hsplit]
  simp [pchunk]

theorem writeInt32_zeros (pre : List ℕ) (k : ℕ) (n : ℤ) (h : 4 ≤ k) :
    writeInt32 (pre ++ List.replicate k 0) pre.length n
      = (pre ++ bytesBE4 (uint32OfInt n) ++ List.replicate (k - 4) 0,
          pre.length + 4) := by
  unfold writeInt32
  rw [storeBytes_zeros pre _ k (by simp [bytesBE4_length]; omega)]
  simp [bytesBE4_length]

theorem writeFloat32_zeros (pre : List ℕ) (k : ℕ) (v : JSNum) (h : 4 ≤ k) :
    writeFloat32 (pre ++ List.replicate k 0) pre.length v
      = (pre ++ bytesBE4 (f32bitsOfNum v) ++ List.replicate (k - 4) 0,
          pre.length + 4) := by
  unfold writeFloat32
  rw [storeBytes_zeros pre _ k (by simp [bytesBE4_length]; omega)]
  simp [bytesBE4_length]

theorem writeArgs_zeros (args : List JSVal) (pre : List ℕ) (k : ℕ)
    (h : (args.map argSize).sum ≤ k) :
    writeArgs args (pre ++ List.replicate k 0, pre.length)
      = (pre ++ (args.map argChunk).flatten
            ++ List.replicate (k - (args.map argSize).sum) 0,
          pre.length + (args.map argSize).sum) := by
  induction args generalizing pre k with
  | nil => simp [writeArgs]
  | cons a rest ih =>
      have hsum : argSize a + (rest.map argSize).sum ≤ k := by
        simpa [List.map_cons, List.sum_cons] using h
      have hsz : argSize a ≤ k := by omega
      have hrest : (rest.map argSize).sum ≤ k - argSize a := by omega
      have step :
          (match a with
            | JSVal.num v =>
                if isIntegerNum v then
                  writeInt32 (pre ++ List.replicate k 0) pre.length (v.getD 0).num
                else
                  writeFloat32 (pre ++ List.replicate k 0) pre.length v
            | JSVal.str s => writeString (pre ++ List.replicate k 0) pre.length s)
          = (pre ++ argChunk a ++ List.replicate (k - argSize a) 0,
              pre.length + argSize a) := by
        cases a with
        | num v =>
            by_cases hint : isIntegerNum v = true
            · simp only [hint, if_true, argChunk, argSize]
              exact writeInt32_zeros pre k _ (by simpa [argSize] using hsz)
            · simp only [hint, if_false]
              rw [writeFloat32_zeros pre k v (by simpa [argSize] using hsz)]
              simp [argChunk, argSize, hint]
        | str s =>
            simp only [argChunk, argSize]
            exact writeString_zeros pre s k (by simpa [argSize] using hsz)
      have unfolded : writeArgs (a :: rest) (pre ++ List.replicate k 0, pre.length)
          = writeArgs rest (pre ++ argChunk a ++ List.replicate (k - argSize a) 0,
              pre.length + argSize a) := by
        simp only [writeArgs, List.foldl_cons]
        rw [← step]
      rw [unfolded]
      have hlen : (pre ++ argChunk a).length = pre.length + argSize a := by
        simp [argChunk_length]
      have hrec := ih (pre ++ argChunk a) (k - argSize a) hrest
      rw [hlen] at hrec
      rw [hrec]
      have hn : k - argSize a - (rest.map argSize).sum
          = k - ((a :: rest).map argSize).sum := by
        simp only [List.map_cons, List.sum_cons]; omega
      have hm : ((a :: rest).map argSize).sum = argSize a + (rest.map argSize).sum := by
        simp [List.map_cons, List.sum_cons]
      rw [hn, hm]
      simp [List.append_assoc]
      omega

/-- Concatenation form of `OscEncoder.encode`: the encoded buffer is the
padded address chunk, the padded type-tag chunk, then one payload chunk
per argument, in order. -/
theorem encode_eq_chunks (address : List ℕ) (args : List JSVal) :
    encode address args
      = pchunk address ++ pchunk (typeTagsOf args)
          ++ (args.map argChunk).flatten := by
  show (writeArgs args
      (writeString (writeString (List.replicate (encodeSize address args) 0)
          0 address).1
        (writeString (List.replicate (encodeSize address args) 0) 0 address).2
        (typeTagsOf args))).1 = _
  have h1 : writeString (List.replicate (encodeSize address args) 0) 0 address
      = (pchunk address
          ++ List.replicate
            (alignedSize (typeTagsOf args).length + (args.map argSize).sum) 0,
          alignedSize address.length) := by
    have hw := writeString_zeros [] address (encodeSize address args)
      (by unfold encodeSize; omega)
    simp only [List.nil_append, List.length_nil, Nat.zero_add] at hw
    have hr : encodeSize address args - alignedSize address.length
        = alignedSize (typeTagsOf args).length + (args.map argSize).sum := by
      unfold encodeSize; omega
    rw [hw, hr]
  rw [h1]
  have h2 : writeString
      (pchunk address
        ++ List.replicate
          (alignedSize (typeTagsOf args).length + (args.map argSize).sum) 0)
      (alignedSize address.length) (typeTagsOf args)
      = (pchunk address ++ pchunk (typeTagsOf args)
          ++ List.replicate ((args.map argSize).sum) 0,
          alignedSize address.length + alignedSize (typeTagsOf args).length) := by
    have := writeString_zeros (pchunk address) (typeTagsOf args)
      (alignedSize (typeTagsOf args).length + (args.map argSize).sum) (by omega)
    rw [pchunk_length] at this
    rw [this]
    have hr : alignedSize (typeTagsOf args).length + (args.map argSize).sum
        - alignedSize (typeTagsOf args).length = (args.map argSize).sum := by omega
    rw [hr]
  rw [h2]
  have h3 : writeArgs args
      (pchunk address ++ pchunk (typeTagsOf args)
          ++ List.replicate ((args.map argSize).sum) 0,
        alignedSize address.length + alignedSize (typeTagsOf args).length)
      = (pchunk address ++ pchunk (typeTagsOf args)
            ++ (args.map argChunk).flatten
            ++ List.replicate 0 0,
          alignedSize address.length + alignedSize (typeTagsOf args).length
            + (args.map argSize).sum) := by
    have hw := writeArgs_zeros args (pchunk address ++ pchunk (typeTagsOf args))
      ((args.map argSize).sum) (by omega)
    simp only [List.length_append, pchunk_length] at hw
    rw [hw]
    simp
  rw [h3]
  simp

/-- Sum of the per-argument payload sizes is a multiple of 4. -/
theorem argSizes_mod4 (args : List JSVal) : (args.map argSize).sum % 4 = 0 := by
  induction args with
  | nil => simp
  | cons a rest ih =>
      have ha : argSize a % 4 = 0 := by
        cases a with
        | num v => simp [argSize]
        | str s => simpa [argSize] using alignedSize_mod4 s.length
      simp only [List.map_cons, List.sum_cons]
      omega

/-- Length of the encoded buffer is the size precomputed by the encoder. -/
theorem encode_length (address : List ℕ) (args : List JSVal) :
    (encode address args).length = encodeSize address args := by
  have hchunks : ∀ l : List JSVal, ((l.map argChunk).flatten).length
      = (l.map argSize).sum := by
    intro l
    induction l with
    | nil => simp
    | cons a rest ih => simp [argChunk_length, ih]
  rw [encode_eq_chunks]
  simp [pchunk_length, hchunks, encodeSize]
  omega

/-! ## Decoding the concatenation form -/

theorem takeWhile_append_zero (s t : List ℕ) (h : ∀ b ∈ s, b ≠ 0) :
    (s ++ 0 :: t).takeWhile (fun b => b ≠ 0) = s := by
  induction s with
  | nil => simp [List.takeWhile]
  | cons a s ih =>
      have ha : a ≠ 0 := h a (by simp)
      have ih2 := ih (fun b hb => h b (by simp [hb]))
      simp only [ne_eq, decide_not] at ih2 ⊢
      simp [ha, ih2]

theorem readString_pchunk (pre s rest : List ℕ) (h : ∀ b ∈ s, b ≠ 0) :
    readString (pre ++ (pchunk s ++ rest)) pre.length
      = (s, pre.length + alignedSize s.length) := by
  unfold readString pchunk
  rw [List.drop_left]
  have : (s ++ [0] ++ List.replicate (alignedSize s.length - (s.length + 1)) 0
      ++ rest)
      = s ++ 0 :: (List.replicate (alignedSize s.length - (s.length + 1)) 0
          ++ rest) := by simp
  rw [this, takeWhile_append_zero s _ h]

theorem getD_append_chunk (pre l : List ℕ) (i : ℕ) :
    (pre ++ l).getD (pre.length + i) 0 = l.getD i 0 := by
  induction pre with
  | nil => simp
  | cons a pre ih => simpa [List.cons_append, Nat.succ_add] using ih

theorem int32_roundtrip (n : ℤ) (h1 : -(2 ^ 31) ≤ n) (h2 : n < 2 ^ 31) :
    int32OfUint (uint32OfInt n) = n := by
  unfold int32OfUint uint32OfInt
  omega

theorem beWord_bytesBE4 (pre rest : List ℕ) (u : ℕ) (hu : u < 2 ^ 32) :
    (pre ++ (bytesBE4 u ++ rest)).getD pre.length 0 * 2 ^ 24
      + (pre ++ (bytesBE4 u ++ rest)).getD (pre.length + 1) 0 * 2 ^ 16
      + (pre ++ (bytesBE4 u ++ rest)).getD (pre.length + 2) 0 * 2 ^ 8
      + (pre ++ (bytesBE4 u ++ rest)).getD (pre.length + 3) 0 = u := by
  have h0 : (pre ++ (bytesBE4 u ++ rest)).getD pre.length 0 = u / 2 ^ 24 % 256 := by
    have := getD_append_chunk pre (bytesBE4 u ++ rest) 0
    simpa [bytesBE4] using this
  have h1 : (pre ++ (bytesBE4 u ++ rest)).getD (pre.length + 1) 0
      = u / 2 ^ 16 % 256 := by
    have := getD_append_chunk pre (bytesBE4 u ++ rest) 1
    simpa [bytesBE4] using this
  have h2 : (pre ++ (bytesBE4 u ++ rest)).getD (pre.length + 2) 0
      = u / 2 ^ 8 % 256 := by
    have := getD_append_chunk pre (bytesBE4 u ++ rest) 2
    simpa [bytesBE4] using this
  have h3 : (pre ++ (bytesBE4 u ++ rest)).getD (pre.length + 3) 0 = u % 256 := by
    have := getD_append_chunk pre (bytesBE4 u ++ rest) 3
    simpa [bytesBE4] using this
  rw [h0, h1, h2, h3]
  omega

theorem readInt32_chunk (pre rest : List ℕ) (u : ℕ) (hu : u < 2 ^ 32) :
    readInt32 (pre ++ (bytesBE4 u ++ rest)) pre.length
      = .ok (int32OfUint u, pre.length + 4) := by
  unfold readInt32
  have hlen : pre.length + 4 ≤ (pre ++ (bytesBE4 u ++ rest)).length := by
    simp [bytesBE4]
  rw [if_pos hlen, beWord_bytesBE4 pre rest u hu]

theorem readFloat32_chunk (pre rest : List ℕ) (u : ℕ) (hu : u < 2 ^ 32) :
    readFloat32 (pre ++ (bytesBE4 u ++ rest)) pre.length
      = .ok (f32val u, pre.length + 4) := by
  unfold readFloat32
  have hlen : pre.length + 4 ≤ (pre ++ (bytesBE4 u ++ rest)).length := by
    simp [bytesBE4]
  rw [if_pos hlen, beWord_bytesBE4 pre rest u hu]


theorem parseArgs_int_step (data : List ℕ) (tags : List ℕ) (off : ℕ) (v : ℤ)
    (off' : ℕ) (h : readInt32 data off = .ok (v, off')) :
    parseArgs data (105 :: tags) off
      = match parseArgs data tags off' with
        | .error e => .error e
        | .ok tl => .ok (JSVal.num (some (v : ℚ)) :: tl) := by
  show (do
      let p ← readInt32 data off
      let tl ← parseArgs data tags p.2
      pure (JSVal.num (some ((p.1 : ℤ) : ℚ)) :: tl)) = _
  rw [h]
  show (do
      let tl ← parseArgs data tags off'
      pure (JSVal.num (some ((v : ℤ) : ℚ)) :: tl)) = _
  cases parseArgs data tags off' <;> rfl

theorem parseArgs_float_step (data : List ℕ) (tags : List ℕ) (off : ℕ)
    (v : JSNum) (off' : ℕ) (h : readFloat32 data off = .ok (v, off')) :
    parseArgs data (102 :: tags) off
      = match parseArgs data tags off' with
        | .error e => .error e
        | .ok tl => .ok (JSVal.num v :: tl) := by
  show (do
      let p ← readFloat32 data off
      let tl ← parseArgs data tags p.2
      pure (JSVal.num p.1 :: tl)) = _
  rw [h]
  show (do
      let tl ← parseArgs data tags off'
      pure (JSVal.num v :: tl)) = _
  cases parseArgs data tags off' <;> rfl

theorem parseArgs_str_step (data : List ℕ) (tags : List ℕ) (off : ℕ) :
    parseArgs data (115 :: tags) off
      = match parseArgs data tags (readString data off).2 with
        | .error e => .error e
        | .ok tl => .ok (JSVal.str (readString data off).1 :: tl) := by
  show (do
      let tl ← parseArgs data tags (readString data off).2
      pure (JSVal.str (readString data off).1 :: tl)) = _
  cases parseArgs data tags (readString data off).2 <;> rfl

theorem parseArgs_int_err (data : List ℕ) (tags : List ℕ) (off : ℕ)
    (e : DecErr) (h : readInt32 data off = .error e) :
    parseArgs data (105 :: tags) off = .error e := by
  show (do
      let p ← readInt32 data off
      let tl ← parseArgs data tags p.2
      pure (JSVal.num (some ((p.1 : ℤ) : ℚ)) :: tl)) = _
  rw [h]
  rfl

theorem parseArgs_chunks (args : List JSVal) (data pre : List ℕ)
    (hdata : data = pre ++ (args.map argChunk).flatten)
    (hgood : ∀ a ∈ args, goodArg a = true) :
    parseArgs data (args.map tagOf) pre.length = .ok args := by
  induction args generalizing pre with
  | nil => simp [parseArgs]
  | cons a rest ih =>
      have hg := hgood a (by simp)
      have hrest : ∀ x ∈ rest, goodArg x = true := fun x hx => hgood x (by simp [hx])
      have hdata' : data = (pre ++ argChunk a)
          ++ (rest.map argChunk).flatten := by
        simp [hdata, List.append_assoc]
      cases a with
      | num v =>
          cases v with
          | none => simp [goodArg] at hg
          | some q =>
              by_cases hden : q.den = 1
              · -- integer argument, written with tag 'i'
                have hrange : -(2 ^ 31) ≤ q.num ∧ q.num < 2 ^ 31 := by
                  simp [goodArg, hden] at hg
                  exact hg
                have htag : tagOf (JSVal.num (some q)) = 105 := by
                  simp [tagOf, isIntegerNum, hden]
                have hchunk : argChunk (JSVal.num (some q))
                    = bytesBE4 (uint32OfInt q.num) := by
                  simp [argChunk, isIntegerNum, hden]
                have hu : uint32OfInt q.num < 2 ^ 32 := by
                  unfold uint32OfInt; omega
                have hread : readInt32 data pre.length
                    = .ok (int32OfUint (uint32OfInt q.num), pre.length + 4) := by
                  rw [hdata, List.map_cons, List.flatten_cons, hchunk,
                    ← List.append_assoc]
                  rw [List.append_assoc]
                  exact readInt32_chunk pre _ _ hu
                have hlen4 : (pre ++ argChunk (JSVal.num (some q))).length
                    = pre.length + 4 := by
                  simp [hchunk, bytesBE4]
                have hrec := ih (pre ++ argChunk (JSVal.num (some q))) hdata' hrest
                rw [hlen4] at hrec
                rw [List.map_cons, htag,
                  parseArgs_int_step data _ pre.length _ _ hread, hrec,
                  int32_roundtrip q.num hrange.1 hrange.2]
                have hq : ((q.num : ℚ)) = q := by
                  rw [← Rat.num_div_den q, hden]
                  simp
                rw [hq]
              · -- non-integral argument, written with tag 'f'
                have hf : roundF32bits q < 2 ^ 32
                    ∧ f32val (roundF32bits q) = some q := by
                  simp [goodArg, hden] at hg
                  exact hg
                have htag : tagOf (JSVal.num (some q)) = 102 := by
                  simp [tagOf, isIntegerNum, hden]
                have hchunk : argChunk (JSVal.num (some q))
                    = bytesBE4 (roundF32bits q) := by
                  simp [argChunk, isIntegerNum, hden, f32bitsOfNum]
                have hread : readFloat32 data pre.length
                    = .ok (f32val (roundF32bits q), pre.length + 4) := by
                  rw [hdata, List.map_cons, List.flatten_cons, hchunk,
                    ← List.append_assoc]
                  rw [List.append_assoc]
                  exact readFloat32_chunk pre _ _ hf.1
                have hlen4 : (pre ++ argChunk (JSVal.num (some q))).length
                    = pre.length + 4 := by
                  simp [hchunk, bytesBE4]
                have hrec := ih (pre ++ argChunk (JSVal.num (some q))) hdata' hrest
                rw [hlen4] at hrec
                rw [List.map_cons, htag,
                  parseArgs_float_step data _ pre.length _ _ hread, hrec, hf.2]
      | str s =>
          have hs : ∀ b ∈ s, b ≠ 0 := by
            intro b hb
            have hall := hg
            simp [goodArg, List.all_eq_true] at hall
            exact hall b hb
          have htag : tagOf (JSVal.str s) = 115 := by simp [tagOf]
          have hchunk : argChunk (JSVal.str s) = pchunk s := by simp [argChunk]
          have hread : readString data pre.length
              = (s, pre.length + alignedSize s.length) := by
            rw [hdata, List.map_cons, List.flatten_cons, hchunk, ← List.append_assoc]
            rw [List.append_assoc]
            exact readString_pchunk pre s _ hs
          have hlenc : (pre ++ argChunk (JSVal.str s)).length
              = pre.length + alignedSize s.length := by
            simp [hchunk, pchunk_length]
          have hrec := ih (pre ++ argChunk (JSVal.str s)) hdata' hrest
          rw [hlenc] at hrec
          rw [List.map_cons, htag, parseArgs_str_step data _ pre.length, hread,
            hrec]

theorem tags_ne_zero (args : List JSVal) : ∀ b ∈ typeTagsOf args, b ≠ 0 := by
  intro b hb
  unfold typeTagsOf at hb
  rcases List.mem_cons.mp hb with h | h
  · omega
  · rcases List.mem_map.mp h with ⟨a, _, rfl⟩
    cases a with
    | num v => by_cases hv : isIntegerNum v = true <;> simp [tagOf, hv]
    | str s => simp [tagOf]

theorem alignedSize_ge4 (L : ℕ) : 4 ≤ alignedSize L := by
  unfold alignedSize; omega

/-- Codec round trip (claim C1): decoding an encoded message returns the
same address and the same argument list, provided the address is free of
null bytes and every argument survives the wire (`goodArg`): integral
numbers fit in an int32, non-integral numbers are exactly representable
in binary32, strings contain no null bytes. -/
theorem C1_osc_roundtrip (address : List ℕ) (args : List JSVal)
    (ha : ∀ b ∈ address, b ≠ 0) (hg : ∀ a ∈ args, goodArg a = true) :
    decode (encode address args) = .ok (address, args) := by
  rw [encode_eq_chunks, List.append_assoc]
  have h1 : readString (pchunk address
      ++ (pchunk (typeTagsOf args) ++ (args.map argChunk).flatten)) 0
      = (address, alignedSize address.length) := by
    have hr := readString_pchunk [] address
      (pchunk (typeTagsOf args) ++ (args.map argChunk).flatten) ha
    simpa using hr
  have hlen : alignedSize address.length + 4
      ≤ (pchunk address
          ++ (pchunk (typeTagsOf args) ++ (args.map argChunk).flatten)).length := by
    have h4 := alignedSize_ge4 (typeTagsOf args).length
    simp [pchunk_length]
    omega
  have hcomma : (pchunk address
      ++ (pchunk (typeTagsOf args) ++ (args.map argChunk).flatten)).getD
        (alignedSize address.length) 0 = 44 := by
    have := getD_append_chunk (pchunk address)
      (pchunk (typeTagsOf args) ++ (args.map argChunk).flatten) 0
    rw [pchunk_length] at this
    simpa [pchunk, typeTagsOf] using this
  have hcond : ¬((pchunk address
      ++ (pchunk (typeTagsOf args) ++ (args.map argChunk).flatten)).length
        ≤ (readString (pchunk address
          ++ (pchunk (typeTagsOf args) ++ (args.map argChunk).flatten)) 0).2
      ∨ (pchunk address
          ++ (pchunk (typeTagsOf args) ++ (args.map argChunk).flatten)).getD
          (readString (pchunk address
            ++ (pchunk (typeTagsOf args) ++ (args.map argChunk).flatten)) 0).2 0
          ≠ 44) := by
    rw [h1]
    push_neg
    constructor
    · omega
    · exact hcomma
  have h2 : readString (pchunk address
      ++ (pchunk (typeTagsOf args) ++ (args.map argChunk).flatten))
        (alignedSize address.length)
      = (typeTagsOf args,
          alignedSize address.length + alignedSize (typeTagsOf args).length) := by
    have hr := readString_pchunk (pchunk address) (typeTagsOf args)
      ((args.map argChunk).flatten) (tags_ne_zero args)
    rw [pchunk_length] at hr
    exact hr
  have h3 : parseArgs (pchunk address
      ++ (pchunk (typeTagsOf args) ++ (args.map argChunk).flatten))
        (args.map tagOf)
        (alignedSize address.length + alignedSize (typeTagsOf args).length)
      = .ok args := by
    have hp := parseArgs_chunks args
      (pchunk address ++ (pchunk (typeTagsOf args) ++ (args.map argChunk).flatten))
      (pchunk address ++ pchunk (typeTagsOf args))
      (by simp [List.append_assoc]) hg
    rw [List.length_append, pchunk_length, pchunk_length] at hp
    exact hp
  show (if _ ∨ _ then _ else _) = _
  rw [if_neg hcond, h1, h2]
  show (do
      let as ← parseArgs (pchunk address
        ++ (pchunk (typeTagsOf args) ++ (args.map argChunk).flatten))
        ((typeTagsOf args).drop 1)
        (alignedSize address.length + alignedSize (typeTagsOf args).length)
      pure (address, as)) = _
  have hdrop : (typeTagsOf args).drop 1 = args.map tagOf := by
    simp [typeTagsOf]
  rw [hdrop, h3]
  rfl

set_option maxRecDepth 8000 in
/-- Witness for C1 at a concrete message: address "/a", arguments
[int 5, float 1.5, string "hi"]. -/
theorem C1_osc_roundtrip_witness :
    decode (encode [47, 97]
        [JSVal.num (some 5), JSVal.num (some (3 / 2)), JSVal.str [104, 105]])
      = .ok ([47, 97],
          [JSVal.num (some 5), JSVal.num (some (3 / 2)), JSVal.str [104, 105]]) :=
  C1_osc_roundtrip [47, 97]
    [JSVal.num (some 5), JSVal.num (some (3 / 2)), JSVal.str [104, 105]]
    (by decide) (by decide)

/-- Alignment invariant (claim C8): every encoded message is the padded
address chunk, the padded type-tag chunk, then the argument payloads —
address and string arguments are null-terminated and zero-padded to a
4-byte boundary (`pchunk`) — and its total length is a multiple of 4. -/
theorem C8_encode_aligned (address : List ℕ) (args : List JSVal) :
    encode address args
        = pchunk address ++ pchunk (typeTagsOf args)
            ++ (args.map argChunk).flatten
      ∧ (encode address args).length % 4 = 0 := by
  refine ⟨encode_eq_chunks address args, ?_⟩
  rw [encode_length]
  unfold encodeSize
  have h1 := alignedSize_mod4 address.length
  have h2 := alignedSize_mod4 (typeTagsOf args).length
  have h3 := argSizes_mod4 args
  omega

/-- Zero-argument decode shape (claim C9): when the byte after the padded
address is not a comma (or the buffer ends there), decode returns the
address with an empty argument list and no error. -/
theorem C9_decode_no_tags (data : List ℕ)
    (h : data.length ≤ (readString data 0).2
      ∨ data.getD (readString data 0).2 0 ≠ 44) :
    decode data = .ok ((readString data 0).1, []) := by
  show (if _ ∨ _ then _ else _) = _
  rw [if_pos h]

/-- Witness for C9: the 4-byte buffer "/x" ends right after the padded
address. -/
theorem C9_decode_no_tags_witness :
    decode [47, 120, 0, 0] = .ok ([47, 120], []) :=
  C9_decode_no_tags [47, 120, 0, 0] (by decide)

theorem takeWhile_all (s : List ℕ) (h : ∀ b ∈ s, b ≠ 0) :
    s.takeWhile (fun b => b ≠ 0) = s := by
  induction s with
  | nil => simp
  | cons a s ih =>
      have ha : a ≠ 0 := h a (by simp)
      have ih2 := ih (fun b hb => h b (by simp [hb]))
      simp only [ne_eq, decide_not] at ih2 ⊢
      simp [ha, ih2]

theorem readString_tail (pre s : List ℕ) (h : ∀ b ∈ s, b ≠ 0) :
    readString (pre ++ s) pre.length = (s, pre.length + alignedSize s.length) := by
  unfold readString
  rw [List.drop_left, takeWhile_all s h]

/-- Stepping lemma for `decode` once the address and type-tag reads are
known: decode dispatches to the argument parser. -/
theorem decode_steps (data addr : List ℕ) (a1 : ℕ) (tags : List ℕ) (a2 : ℕ)
    (h1 : readString data 0 = (addr, a1)) (hlt : a1 < data.length)
    (hc : data.getD a1 0 = 44) (h2 : readString data a1 = (tags, a2)) :
    decode data = match parseArgs data (tags.drop 1) a2 with
      | .error e => .error e
      | .ok as => .ok (addr, as) := by
  have hcond : ¬(data.length ≤ (readString data 0).2
      ∨ data.getD (readString data 0).2 0 ≠ 44) := by
    rw [h1]
    push_neg
    exact ⟨hlt, hc⟩
  show (if _ ∨ _ then _ else _) = _
  rw [if_neg hcond, h1]
  show (do
      let as ← parseArgs data ((readString data a1).1.drop 1)
        (readString data a1).2
      pure (addr, as)) = _
  rw [h2]
  cases parseArgs data (tags.drop 1) a2 <;> rfl

/-- Counterexample to claim C5 as stated: this buffer is truncated
mid-argument (its type tag declares a string whose null terminator lies
past the end of the buffer), yet decode succeeds, returning the partial
bytes read so far — it does not return any decode failure. -/
theorem C5_counterexample :
    decode [47, 97, 0, 0, 44, 115, 0, 0, 97, 98]
      = .ok ([47, 97], [JSVal.str [97, 98]]) := by decide

theorem tagOf_ne_zero (a : JSVal) : tagOf a ≠ 0 := by
  cases a with
  | num v => by_cases hv : isIntegerNum v = true <;> simp [tagOf, hv]
  | str s => simp [tagOf]

theorem parseArgs_float_err (data : List ℕ) (tags : List ℕ) (off : ℕ)
    (e : DecErr) (h : readFloat32 data off = .error e) :
    parseArgs data (102 :: tags) off = .error e := by
  show (do
      let p ← readFloat32 data off
      let tl ← parseArgs data tags p.2
      pure (JSVal.num p.1 :: tl)) = _
  rw [h]
  rfl

/-- Continuation form of `parseArgs_chunks`: parsing the tags of a
well-formed argument block followed by further tags consumes exactly the
block's payload chunks and hands the remaining tags the offset right
after them, whatever bytes follow. -/
theorem parseArgs_chunks_cont (args : List JSVal) (tags2 : List ℕ)
    (data pre rest : List ℕ)
    (hdata : data = pre ++ ((args.map argChunk).flatten ++ rest))
    (hgood : ∀ a ∈ args, goodArg a = true) :
    parseArgs data (args.map tagOf ++ tags2) pre.length
      = match parseArgs data tags2
            (pre.length + ((args.map argChunk).flatten).length) with
        | .error e => .error e
        | .ok tl => .ok (args ++ tl) := by
  induction args generalizing pre with
  | nil =>
      simp only [List.map_nil, List.nil_append, List.flatten_nil,
        List.length_nil, Nat.add_zero]
      cases parseArgs data tags2 pre.length <;> simp
  | cons a rest' ih =>
      have hg := hgood a (by simp)
      have hrest : ∀ x ∈ rest', goodArg x = true := fun x hx => hgood x (by simp [hx])
      have hdata' : data = (pre ++ argChunk a)
          ++ ((rest'.map argChunk).flatten ++ rest) := by
        simp [hdata, List.append_assoc]
      cases a with
      | num v =>
          cases v with
          | none => simp [goodArg] at hg
          | some q =>
              by_cases hden : q.den = 1
              · have hrange : -(2 ^ 31) ≤ q.num ∧ q.num < 2 ^ 31 := by
                  simp [goodArg, hden] at hg
                  exact hg
                have htag : tagOf (JSVal.num (some q)) = 105 := by
                  simp [tagOf, isIntegerNum, hden]
                have hchunk : argChunk (JSVal.num (some q))
                    = bytesBE4 (uint32OfInt q.num) := by
                  simp [argChunk, isIntegerNum, hden]
                have hu : uint32OfInt q.num < 2 ^ 32 := by
                  unfold uint32OfInt; omega
                have hread : readInt32 data pre.length
                    = .ok (int32OfUint (uint32OfInt q.num), pre.length + 4) := by
                  rw [hdata, List.map_cons, List.flatten_cons, hchunk,
                    List.append_assoc]
                  exact readInt32_chunk pre _ _ hu
                have hlen4 : (pre ++ argChunk (JSVal.num (some q))).length
                    = pre.length + 4 := by
                  simp [hchunk, bytesBE4]
                have hrec := ih (pre ++ argChunk (JSVal.num (some q))) hdata' hrest
                rw [hlen4] at hrec
                rw [List.map_cons, htag, List.cons_append,
                  parseArgs_int_step data _ pre.length _ _ hread, hrec,
                  int32_roundtrip q.num hrange.1 hrange.2]
                have hq : ((q.num : ℚ)) = q := by
                  rw [← Rat.num_div_den q, hden]
                  simp
                rw [hq]
                have hoff : pre.length
                      + (((JSVal.num (some q) :: rest').map argChunk).flatten).length
                    = pre.length + 4 + ((rest'.map argChunk).flatten).length := by
                  simp [List.map_cons, List.flatten_cons, List.length_append,
                    hchunk, bytesBE4]
                  omega
                rw [hoff]
                cases parseArgs data tags2
                  (pre.length + 4 + ((rest'.map argChunk).flatten).length)
                  <;> simp
              · have hf : roundF32bits q < 2 ^ 32
                    ∧ f32val (roundF32bits q) = some q := by
                  simp [goodArg, hden] at hg
                  exact hg
                have htag : tagOf (JSVal.num (some q)) = 102 := by
                  simp [tagOf, isIntegerNum, hden]
                have hchunk : argChunk (JSVal.num (some q))
                    = bytesBE4 (roundF32bits q) := by
                  simp [argChunk, isIntegerNum, hden, f32bitsOfNum]
                have hread : readFloat32 data pre.length
                    = .ok (f32val (roundF32bits q), pre.length + 4) := by
                  rw [hdata, List.map_cons, List.flatten_cons, hchunk,
                    List.append_assoc]
                  exact readFloat32_chunk pre _ _ hf.1
                have hlen4 : (pre ++ argChunk (JSVal.num (some q))).length
                    = pre.length + 4 := by
                  simp [hchunk, bytesBE4]
                have hrec := ih (pre ++ argChunk (JSVal.num (some q))) hdata' hrest
                rw [hlen4] at hrec
                rw [List.map_cons, htag, List.cons_append,
                  parseArgs_float_step data _ pre.length _ _ hread, hrec, hf.2]
                have hoff : pre.length
                      + (((JSVal.num (some q) :: rest').map argChunk).flatten).length
                    = pre.length + 4 + ((rest'.map argChunk).flatten).length := by
                  simp [List.map_cons, List.flatten_cons, List.length_append,
                    hchunk, bytesBE4]
                  omega
                rw [hoff]
                cases parseArgs data tags2
                  (pre.length + 4 + ((rest'.map argChunk).flatten).length)
                  <;> simp
      | str s0 =>
          have hs : ∀ b ∈ s0, b ≠ 0 := by
            intro b hb
            have hall := hg
            simp [goodArg, List.all_eq_true] at hall
            exact hall b hb
          have htag : tagOf (JSVal.str s0) = 115 := by simp [tagOf]
          have hchunk : argChunk (JSVal.str s0) = pchunk s0 := by simp [argChunk]
          have hread : readString data pre.length
              = (s0, pre.length + alignedSize s0.length) := by
            rw [hdata, List.map_cons, List.flatten_cons, hchunk,
              List.append_assoc]
            exact readString_pchunk pre s0 _ hs
          have hlenc : (pre ++ argChunk (JSVal.str s0)).length
              = pre.length + alignedSize s0.length := by
            simp [hchunk, pchunk_length]
          have hrec := ih (pre ++ argChunk (JSVal.str s0)) hdata' hrest
          rw [hlenc] at hrec
          rw [List.map_cons, htag, List.cons_append,
            parseArgs_str_step data _ pre.length, hread, hrec]
          have hoff : pre.length
                + (((JSVal.str s0 :: rest').map argChunk).flatten).length
              = pre.length + alignedSize s0.length
                + ((rest'.map argChunk).flatten).length := by
            simp [List.map_cons, List.flatten_cons, List.length_append,
              hchunk, pchunk_length]
            omega
          rw [hoff]
          cases parseArgs data tags2
            (pre.length + alignedSize s0.length
              + ((rest'.map argChunk).flatten).length)
            <;> simp

/-- Total length of a truncated buffer. -/
theorem truncBuf_length (address : List ℕ) (args : List JSVal) (t : ℕ)
    (payload : List ℕ) :
    (truncBuf address args t payload).length
      = alignedSize address.length
        + alignedSize (44 :: (args.map tagOf ++ [t])).length
        + ((args.map argChunk).flatten).length + payload.length := by
  simp [truncBuf, pchunk_length]
  omega

/-- Shape of `decode` on a truncated buffer: the address and type tags
parse, the well-formed argument block is consumed, and the final tag is
handled at the offset where the cut payload starts. -/
theorem decode_truncBuf (address : List ℕ) (args : List JSVal) (t : ℕ)
    (payload : List ℕ) (ha : ∀ b ∈ address, b ≠ 0)
    (hg : ∀ a ∈ args, goodArg a = true) (ht : t ≠ 0) :
    decode (truncBuf address args t payload)
      = match parseArgs (truncBuf address args t payload) [t]
            (alignedSize address.length
              + alignedSize (44 :: (args.map tagOf ++ [t])).length
              + ((args.map argChunk).flatten).length) with
        | .error e => .error e
        | .ok tl => .ok (address, args ++ tl) := by
  have hnz : ∀ b ∈ (44 :: (args.map tagOf ++ [t])), b ≠ 0 := by
    intro b hb
    rcases List.mem_cons.mp hb with rfl | hb2
    · omega
    · rcases List.mem_append.mp hb2 with hb3 | hb3
      · rcases List.mem_map.mp hb3 with ⟨a, _, rfl⟩
        exact tagOf_ne_zero a
      · rw [List.mem_singleton.mp hb3]
        exact ht
  have hassoc : truncBuf address args t payload
      = pchunk address ++ (pchunk (44 :: (args.map tagOf ++ [t]))
          ++ ((args.map argChunk).flatten ++ payload)) := by
    simp [truncBuf, List.append_assoc]
  have h1 : readString (truncBuf address args t payload) 0
      = (address, alignedSize address.length) := by
    rw [hassoc]
    simpa using readString_pchunk [] address _ ha
  have h2 : readString (truncBuf address args t payload)
      (alignedSize address.length)
      = (44 :: (args.map tagOf ++ [t]),
          alignedSize address.length
            + alignedSize (44 :: (args.map tagOf ++ [t])).length) := by
    rw [hassoc]
    have hr := readString_pchunk (pchunk address)
      (44 :: (args.map tagOf ++ [t]))
      ((args.map argChunk).flatten ++ payload) hnz
    rw [pchunk_length] at hr
    exact hr
  have hcomma : (truncBuf address args t payload).getD
      (alignedSize address.length) 0 = 44 := by
    rw [hassoc]
    have hgd := getD_append_chunk (pchunk address)
      (pchunk (44 :: (args.map tagOf ++ [t]))
        ++ ((args.map argChunk).flatten ++ payload)) 0
    rw [pchunk_length] at hgd
    simpa [pchunk] using hgd
  have hlt : alignedSize address.length
      < (truncBuf address args t payload).length := by
    have hL := truncBuf_length address args t payload
    have h4 := alignedSize_ge4 (44 :: (args.map tagOf ++ [t])).length
    omega
  rw [decode_steps _ address (alignedSize address.length) _ _ h1 hlt hcomma h2]
  rw [show (44 :: (args.map tagOf ++ [t])).drop 1 = args.map tagOf ++ [t]
    from rfl]
  have hpc := parseArgs_chunks_cont args [t] (truncBuf address args t payload)
    (pchunk address ++ pchunk (44 :: (args.map tagOf ++ [t]))) payload
    (by simp [truncBuf, List.append_assoc]) hg
  rw [List.length_append, pchunk_length, pchunk_length] at hpc
  rw [hpc]
  cases parseArgs (truncBuf address args t payload) [t]
      (alignedSize address.length
        + alignedSize (44 :: (args.map tagOf ++ [t])).length
        + ((args.map argChunk).flatten).length) <;> rfl

/-- Amended C5: `decode` never returns a `Truncated` failure — no such
error exists in the code.  On every buffer whose type-tag string
declares a final argument whose payload is cut short — after a padded
address and any block of wire-representable arguments — the behaviour
is: final tag `i` or `f` with fewer than 4 bytes remaining (whatever
those bytes are) throws the `RangeError` of `DataView.getInt32` /
`getFloat32`, modelled as an error result; final tag `s` with no null
terminator among the remaining bytes succeeds, returning exactly those
bytes as the string value.  The model reads are bounds-checked and never
touch memory past the buffer. -/
theorem C5_decode_truncated (address : List ℕ) (args : List JSVal)
    (payload : List ℕ) (ha : ∀ b ∈ address, b ≠ 0)
    (hg : ∀ a ∈ args, goodArg a = true) :
    (payload.length < 4 →
        decode (truncBuf address args 105 payload) = .error .rangeError
          ∧ decode (truncBuf address args 102 payload) = .error .rangeError)
      ∧ ((∀ b ∈ payload, b ≠ 0) →
          decode (truncBuf address args 115 payload)
            = .ok (address, args ++ [JSVal.str payload])) := by
  constructor
  · intro hlen
    constructor
    · rw [decode_truncBuf address args 105 payload ha hg (by omega)]
      have hread : readInt32 (truncBuf address args 105 payload)
          (alignedSize address.length
            + alignedSize (44 :: (args.map tagOf ++ [105])).length
            + ((args.map argChunk).flatten).length) = .error .rangeError := by
        unfold readInt32
        rw [if_neg]
        have hL := truncBuf_length address args 105 payload
        omega
      rw [parseArgs_int_err _ [] _ _ hread]
    · rw [decode_truncBuf address args 102 payload ha hg (by omega)]
      have hread : readFloat32 (truncBuf address args 102 payload)
          (alignedSize address.length
            + alignedSize (44 :: (args.map tagOf ++ [102])).length
            + ((args.map argChunk).flatten).length) = .error .rangeError := by
        unfold readFloat32
        rw [if_neg]
        have hL := truncBuf_length address args 102 payload
        omega
      rw [parseArgs_float_err _ [] _ _ hread]
  · intro hp
    rw [decode_truncBuf address args 115 payload ha hg (by omega)]
    have hread : readString (truncBuf address args 115 payload)
        (alignedSize address.length
          + alignedSize (44 :: (args.map tagOf ++ [115])).length
          + ((args.map argChunk).flatten).length)
        = (payload,
            alignedSize address.length
              + alignedSize (44 :: (args.map tagOf ++ [115])).length
              + ((args.map argChunk).flatten).length
              + alignedSize payload.length) := by
      have hr := readString_tail
        (pchunk address ++ pchunk (44 :: (args.map tagOf ++ [115]))
          ++ (args.map argChunk).flatten) payload hp
      rw [List.length_append, List.length_append, pchunk_length,
        pchunk_length] at hr
      exact hr
    rw [parseArgs_str_step _ [] _, hread]
    rfl

/-- Witness for the amended C5: address "/a", one well-formed int
argument, then a 2-byte leftover payload.  The truncated int and float
reads raise the range error; the truncated string read returns the two
bytes. -/
theorem C5_decode_truncated_witness :
    decode (truncBuf [47, 97] [JSVal.num (some 5)] 105 [97, 98])
        = .error .rangeError
      ∧ decode (truncBuf [47, 97] [JSVal.num (some 5)] 102 [97, 98])
          = .error .rangeError
      ∧ decode (truncBuf [47, 97] [JSVal.num (some 5)] 115 [97, 98])
          = .ok ([47, 97], [JSVal.num (some 5), JSVal.str [97, 98]]) := by
  have h := C5_decode_truncated [47, 97] [JSVal.num (some 5)] [97, 98]
    (by decide) (by decide)
  have h1 := h.1 (by decide)
  have h2 := h.2 (by decide)
  exact ⟨h1.1, h1.2, h2⟩

/-! ## Handshake theorems -/

/-- The projected tracker completes on any permutation of the pending
acknowledgment set: the session becomes connected and "initialized" is
emitted exactly once, on the final acknowledgment. -/
theorem iRun_completes (l : List String) (t : InitSt)
    (hc : t.connected = false) (hperm : t.initMsgs.Perm l) (hne : l ≠ []) :
    (iRun l t).connected = true ∧ (iRun l t).initCount = t.initCount + 1 := by
  induction l generalizing t with
  | nil => exact absurd rfl hne
  | cons a l' ih =>
      have hmem : a ∈ t.initMsgs := hperm.mem_iff.mpr (by simp)
      have herase : (t.initMsgs.erase a).Perm l' := by
        have := hperm.erase a
        rwa [List.erase_cons_head] at this
      cases l' with
      | nil =>
          have hzero : (t.initMsgs.erase a).length = 0 := by
            simpa using herase.length_eq
          show (iRun [] (iReceive t a)).connected = true
            ∧ (iRun [] (iReceive t a)).initCount = t.initCount + 1
          unfold iRun iReceive
          simp only [hc, List.foldl_nil, Bool.false_eq_true, if_false, hzero,
            if_pos rfl]
          split_ifs <;> simp
      | cons b l'' =>
          have hpos : (t.initMsgs.erase a).length ≠ 0 := by
            have := herase.length_eq
            simp [this]
          have hstep : iReceive t a
              = if !t.sentSysInfo && !(t.initMsgs.erase a).contains "/sys/port"
                  && !(t.initMsgs.erase a).contains "/sys/host" then
                  { t with initMsgs := t.initMsgs.erase a, sentSysInfo := true }
                else { t with initMsgs := t.initMsgs.erase a } := by
            unfold iReceive
            simp only [hc, Bool.false_eq_true, if_false, if_neg hpos]
          show (iRun (b :: l'') (iReceive t a)).connected = true
            ∧ (iRun (b :: l'') (iReceive t a)).initCount = t.initCount + 1
          rw [hstep]
          split_ifs with hinfo
          · exact ih { t with initMsgs := t.initMsgs.erase a, sentSysInfo := true } hc herase (by simp)
          · exact ih { t with initMsgs := t.initMsgs.erase a } hc herase (by simp)

/-- The init tracker leaves a session's projection unchanged in shape:
`receiveInitMsg` on the full state projects to `iReceive`. -/
theorem projDev_receiveInitMsg (s : DevState) (a : String) :
    projDev (receiveInitMsg s a) = iReceive (projDev s) a := by
  unfold receiveInitMsg iReceive projDev
  by_cases hc : s.connected
  · simp [hc]
  · simp only [hc, Bool.false_eq_true, if_false]
    split_ifs <;> simp [List.count_append]

/-- Field assignments in the `/sys/*` handlers do not change the
projection, so an acknowledgment acts on the projection through
`iReceive` at its tracked address. -/
theorem projDev_devStep_ack (s : DevState) (m : DevMsg) (a : String)
    (h : ackAddr m = some a) :
    projDev (devStep s m) = iReceive (projDev s) a := by
  cases m with
  | size x y =>
      have ha : a = "/sys/size" := by simpa [ackAddr] using h.symm
      subst ha
      have : projDev { s with sizeX := x, sizeY := y } = projDev s := rfl
      show projDev (receiveInitMsg { s with sizeX := x, sizeY := y } "/sys/size")
        = _
      rw [projDev_receiveInitMsg, this]
  | rotation r =>
      have ha : a = "/sys/rotation" := by simpa [ackAddr] using h.symm
      subst ha
      show projDev (receiveInitMsg { s with rotation := r } "/sys/rotation") = _
      rw [projDev_receiveInitMsg]
      rfl
  | port p =>
      have ha : a = "/sys/port" := by simpa [ackAddr] using h.symm
      subst ha
      show projDev (receiveInitMsg { s with port := p } "/sys/port") = _
      rw [projDev_receiveInitMsg]
      rfl
  | host hh =>
      have ha : a = "/sys/host" := by simpa [ackAddr] using h.symm
      subst ha
      show projDev (receiveInitMsg { s with host := hh } "/sys/host") = _
      rw [projDev_receiveInitMsg]
      rfl
  | pfx p =>
      have ha : a = "/sys/prefix" := by simpa [ackAddr] using h.symm
      subst ha
      show projDev (receiveInitMsg { s with pfx := p } "/sys/prefix") = _
      rw [projDev_receiveInitMsg]
      rfl
  | sysId i => simp [ackAddr] at h
  | connect => simp [ackAddr] at h
  | disconnect => simp [ackAddr] at h

/-- Folding acknowledgments over the full session projects to folding
their addresses over the tracker. -/
theorem projDev_foldl (l : List DevMsg) (s : DevState)
    (h : ∀ m ∈ l, isAck m = true) :
    projDev (l.foldl devStep s) = iRun (l.filterMap ackAddr) (projDev s) := by
  induction l generalizing s with
  | nil => rfl
  | cons m l' ih =>
      have hm : isAck m = true := h m (by simp)
      obtain ⟨a, ha⟩ := Option.isSome_iff_exists.mp hm
      have hrest : ∀ x ∈ l', isAck x = true := fun x hx => h x (by simp [hx])
      rw [List.foldl_cons, List.filterMap_cons]
      rw [ha]
      rw [iRun, List.foldl_cons, ← iRun]
      rw [ih _ hrest, projDev_devStep_ack s m a ha]

/-- After the session is connected, tracked acknowledgments change
neither the connected flag nor the emitted events. -/
theorem devStep_ack_stable (s : DevState) (m : DevMsg)
    (hc : s.connected = true) (hm : isAck m = true) :
    (devStep s m).connected = true ∧ (devStep s m).events = s.events := by
  cases m with
  | size x y => unfold devStep receiveInitMsg; simp [hc]
  | rotation r => unfold devStep receiveInitMsg; simp [hc]
  | port p => unfold devStep receiveInitMsg; simp [hc]
  | host hh => unfold devStep receiveInitMsg; simp [hc]
  | pfx p => unfold devStep receiveInitMsg; simp [hc]
  | sysId i => simp [isAck, ackAddr] at hm
  | connect => simp [isAck, ackAddr] at hm
  | disconnect => simp [isAck, ackAddr] at hm

/-- Acknowledgments after connection leave events and the flag intact. -/
theorem foldl_ack_stable (l : List DevMsg) (s : DevState)
    (hc : s.connected = true) (h : ∀ m ∈ l, isAck m = true) :
    (l.foldl devStep s).connected = true
      ∧ (l.foldl devStep s).events = s.events := by
  induction l generalizing s with
  | nil => exact ⟨hc, rfl⟩
  | cons m l' ih =>
      have hm := devStep_ack_stable s m hc (h m (by simp))
      have hrest : ∀ x ∈ l', isAck x = true := fun x hx => h x (by simp [hx])
      rw [List.foldl_cons]
      have := ih (devStep s m) hm.1 hrest
      exact ⟨this.1, this.2.trans hm.2⟩

/-- Counterexample to claim C2 as stated: delivering only the four
acknowledgments `/sys/size`, `/sys/rotation`, `/sys/host`, `/sys/port`
leaves `/sys/prefix` pending, so no "initialized" event is emitted and
the session is not connected. -/
theorem C2_counterexample :
    (devRun [DevMsg.size 8 8, DevMsg.rotation 0, DevMsg.host "127.0.0.1",
        DevMsg.port 9000]).events.count "initialized" = 0
      ∧ (devRun [DevMsg.size 8 8, DevMsg.rotation 0, DevMsg.host "127.0.0.1",
          DevMsg.port 9000]).connected = false := by decide

/-- Amended C2: the init tracker of `Device.start` follows five
acknowledgments (`/sys/prefix` included).  Delivering those five in any
order, followed by any number of further acknowledgments (duplicates),
emits "initialized" exactly once and leaves the session connected. -/
theorem C2_handshake_order_independent (msgs extra : List DevMsg)
    (hacks : ∀ m ∈ msgs, isAck m = true)
    (hperm : (msgs.filterMap ackAddr).Perm initialInitMsgs)
    (hextra : ∀ m ∈ extra, isAck m = true) :
    (devRun (msgs ++ extra)).events.count "initialized" = 1
      ∧ (devRun (msgs ++ extra)).connected = true := by
  have hsplit : devRun (msgs ++ extra)
      = extra.foldl devStep (msgs.foldl devStep devInit) := by
    unfold devRun
    rw [List.foldl_append]
  have hproj : projDev (msgs.foldl devStep devInit)
      = iRun (msgs.filterMap ackAddr) iInit :=
    projDev_foldl msgs devInit hacks
  have hrun := iRun_completes (msgs.filterMap ackAddr) iInit rfl hperm.symm
    (by
      intro hnil
      have := hperm.length_eq
      rw [hnil] at this
      simp [initialInitMsgs] at this)
  have hc1 : (msgs.foldl devStep devInit).connected = true := by
    have : (projDev (msgs.foldl devStep devInit)).connected = true := by
      rw [hproj]
      exact hrun.1
    exact this
  have hcount1 : (msgs.foldl devStep devInit).events.count "initialized" = 1 := by
    have : (projDev (msgs.foldl devStep devInit)).initCount = 1 := by
      rw [hproj, hrun.2]
      rfl
    exact this
  have hstable := foldl_ack_stable extra (msgs.foldl devStep devInit) hc1 hextra
  rw [hsplit]
  exact ⟨by rw [hstable.2, hcount1], hstable.1⟩

/-- Witness for the amended C2: one of the 120 orders with a duplicate
acknowledgment afterwards. -/
theorem C2_handshake_order_independent_witness :
    (devRun ([DevMsg.pfx "/monome", DevMsg.size 16 8, DevMsg.port 9000,
        DevMsg.rotation 0, DevMsg.host "127.0.0.1"]
        ++ [DevMsg.size 16 8, DevMsg.rotation 90])).events.count "initialized" = 1
      ∧ (devRun ([DevMsg.pfx "/monome", DevMsg.size 16 8, DevMsg.port 9000,
          DevMsg.rotation 0, DevMsg.host "127.0.0.1"]
          ++ [DevMsg.size 16 8, DevMsg.rotation 90])).connected = true :=
  C2_handshake_order_independent
    [DevMsg.pfx "/monome", DevMsg.size 16 8, DevMsg.port 9000,
      DevMsg.rotation 0, DevMsg.host "127.0.0.1"]
    [DevMsg.size 16 8, DevMsg.rotation 90]
    (by decide) (by decide) (by decide)

/-- While acknowledgments are still pending, no "initialized" event has
been emitted: one `receiveInitMsg` step preserves this. -/
theorem receiveInit_keeps (s : DevState) (a : String)
    (h : s.initMsgs ≠ [] → s.events.count "initialized" = 0) :
    (receiveInitMsg s a).initMsgs ≠ []
      → (receiveInitMsg s a).events.count "initialized" = 0 := by
  unfold receiveInitMsg
  by_cases hc : s.connected
  · simpa [hc] using h
  · simp only [hc, Bool.false_eq_true, if_false]
    by_cases hz : (s.initMsgs.erase a).length = 0
    · intro habs
      exfalso
      apply habs
      have : (s.initMsgs.erase a) = [] := List.length_eq_zero.mp hz
      split_ifs <;> simp [this]
    · intro _
      have hsne : s.initMsgs ≠ [] := by
        intro hnil
        rw [hnil] at hz
        simp at hz
      have hcnt := h hsne
      split_ifs <;> simpa using hcnt

/-- Invariant of a running session: as long as acknowledgments are
pending, "initialized" has not been emitted. -/
theorem devRun_pending_count (msgs : List DevMsg) :
    (devRun msgs).initMsgs ≠ [] → (devRun msgs).events.count "initialized" = 0 := by
  suffices hgen : ∀ (l : List DevMsg) (s : DevState),
      (s.initMsgs ≠ [] → s.events.count "initialized" = 0) →
      ((l.foldl devStep s).initMsgs ≠ []
        → (l.foldl devStep s).events.count "initialized" = 0) by
    exact hgen msgs devInit (fun _ => rfl)
  intro l
  induction l with
  | nil => intro s h; exact h
  | cons m l' ih =>
      intro s h
      rw [List.foldl_cons]
      apply ih
      cases m with
      | sysId i => simpa using h
      | size x y => exact receiveInit_keeps _ _ (by simpa using h)
      | rotation r => exact receiveInit_keeps _ _ (by simpa using h)
      | port p => exact receiveInit_keeps _ _ (by simpa using h)
      | host hh => exact receiveInit_keeps _ _ (by simpa using h)
      | pfx p => exact receiveInit_keeps _ _ (by simpa using h)
      | connect =>
          intro hne
          have := h (by simpa using hne)
          simpa [devStep, List.count_append] using this
      | disconnect =>
          intro hne
          have := h (by simpa using hne)
          simpa [devStep, List.count_append] using this

/-- Claim C10: when `/sys/connect` arrives while acknowledgments are
still pending, `receiveInitMsg` returns immediately on every later
acknowledgment (the connected flag is set), so the session never emits
"initialized", whatever acknowledgments follow. -/
theorem C10_connect_preempts_init (pre post : List DevMsg)
    (hpend : (devRun pre).initMsgs ≠ [])
    (hpost : ∀ m ∈ post, isAck m = true) :
    (devRun (pre ++ DevMsg.connect :: post)).events.count "initialized" = 0 := by
  have h0 : (devRun pre).events.count "initialized" = 0 :=
    devRun_pending_count pre hpend
  have hsplit : devRun (pre ++ DevMsg.connect :: post)
      = post.foldl devStep (devStep (devRun pre) DevMsg.connect) := by
    unfold devRun
    rw [List.foldl_append, List.foldl_cons]
  have hconn : (devStep (devRun pre) DevMsg.connect).connected = true := rfl
  have hev : (devStep (devRun pre) DevMsg.connect).events.count "initialized"
      = 0 := by
    show ((devRun pre).events ++ ["connected"]).count "initialized" = 0
    simp [List.count_append, h0]
  have hstable := foldl_ack_stable post (devStep (devRun pre) DevMsg.connect)
    hconn hpost
  rw [hsplit, hstable.2, hev]

/-- Witness for C10: `/sys/connect` first, then all five acknowledgments;
no "initialized" event is ever emitted. -/
theorem C10_connect_preempts_init_witness :
    (devRun ([] ++ DevMsg.connect
        :: [DevMsg.size 8 8, DevMsg.rotation 0, DevMsg.host "127.0.0.1",
            DevMsg.port 9000, DevMsg.pfx "/monome"])).events.count "initialized"
      = 0 :=
  C10_connect_preempts_init []
    [DevMsg.size 8 8, DevMsg.rotation 0, DevMsg.host "127.0.0.1",
      DevMsg.port 9000, DevMsg.pfx "/monome"]
    (by decide) (by decide)

/-! ## Discovery-client theorems -/


theorem keyMatches_iff (i : String) (p : ℤ) (d : DevInfo) :
    keyMatches i p d = true ↔ devKey d = (i, p) := by
  simp [keyMatches, devKey, Prod.ext_iff]

theorem append_add_eq_device_iff (i : String) :
    (i ++ ":add" = "device:add") ↔ i = "device" := by
  constructor
  · intro h
    have hd : i.data ++ (":add").data = ("device").data ++ (":add").data := by
      have := congrArg String.data h
      simpa [String.data_append] using this
    exact String.ext (List.append_cancel_right hd)
  · intro h
    rw [h]
    decide

/-- A key occurs at most once among duplicates-free stored keys. -/
theorem nodup_filter_le_one (l : List DevInfo) (i : String) (p : ℤ)
    (h : (l.map devKey).Nodup) : (l.filter (keyMatches i p)).length ≤ 1 := by
  induction l with
  | nil => simp
  | cons d l ih =>
      rw [List.map_cons, List.nodup_cons] at h
      by_cases hm : keyMatches i p d = true
      · have hkey : devKey d = (i, p) := (keyMatches_iff i p d).mp hm
        have hnil : l.filter (keyMatches i p) = [] := by
          rw [List.filter_eq_nil_iff]
          intro x hx
          intro hxm
          apply h.1
          rw [List.mem_map]
          exact ⟨x, hx, by rw [(keyMatches_iff i p x).mp hxm, hkey]⟩
        simp [List.filter_cons, hm, hnil]
      · simp only [List.filter_cons, hm, Bool.false_eq_true, if_false]
        exact ih h.2


theorem serialInv_init : SerialInv serialInit := by
  constructor
  · simp [serialInit]
  · intro i p
    simp [serialInit, addCount, devCount]

theorem find?_none_devCount (s : SerialState) (i : String) (p : ℤ)
    (h : s.devices.find? (keyMatches i p) = none) : devCount s i p = 0 := by
  unfold devCount
  rw [List.length_eq_zero, List.filter_eq_nil_iff]
  intro d hd
  have := List.find?_eq_none.mp h d hd
  simpa using this

theorem find?_some_devCount (s : SerialState) (i : String) (p : ℤ) (d : DevInfo)
    (hn : (s.devices.map devKey).Nodup)
    (h : s.devices.find? (keyMatches i p) = some d) : devCount s i p = 1 := by
  have hmem : d ∈ s.devices := List.mem_of_find?_eq_some h
  have hmatch : keyMatches i p d = true := List.find?_some h
  have hm2 : d ∈ s.devices.filter (keyMatches i p) :=
    List.mem_filter.mpr ⟨hmem, hmatch⟩
  have hge := List.length_pos.mpr (List.ne_nil_of_mem hm2)
  have hle := nodup_filter_le_one s.devices i p hn
  unfold devCount
  omega

theorem announce_inv (s : SerialState) (i m : String) (p : ℤ)
    (h : SerialInv s) : SerialInv (announce s i m p) := by
  unfold announce
  cases hf : s.devices.find? (keyMatches i p) with
  | some d => exact h
  | none =>
      constructor
      · rw [List.map_append, List.map_singleton]
        rw [List.nodup_append]
        refine ⟨h.1, List.nodup_singleton _, ?_⟩
        intro k hk hk1
        have hkey : k = devKey
            { id := i, model := m, host := "localhost",
              deviceHost := "localhost", devicePort := p,
              dtype := (classify m).1, encoders := (classify m).2 } := by
          simpa using hk1
        rcases List.mem_map.mp hk with ⟨d, hd, rfl⟩
        have hnone := List.find?_eq_none.mp hf d hd
        apply hnone
        rw [keyMatches_iff]
        simpa [devKey] using hkey
      · intro i' p'
        have hx := h.2 i' p'
        unfold addCount devCount at hx ⊢
        simp only [List.filter_append, List.length_append]
        by_cases hip : i' = i ∧ p' = p
        · obtain ⟨rfl, rfl⟩ := hip
          have hdev0 : (s.devices.filter (keyMatches i' p')).length = 0 := by
            have h0 := find?_none_devCount s i' p' hf
            unfold devCount at h0
            exact h0
          have hev0 : (s.events.filter (fun e =>
              e.1 == "device:add" && e.2.1 == i' && e.2.2 == p')).length = 0 := by
            rw [hdev0] at hx
            simpa using hx
          have hkm : keyMatches i' p'
              { id := i', model := m, host := "localhost",
                deviceHost := "localhost", devicePort := p',
                dtype := (classify m).1, encoders := (classify m).2 } = true := by
            simp [keyMatches]
          rw [hdev0, hev0]
          by_cases hdev : i' = "device"
          · subst hdev
            have hb : ((("device" : String) ++ ":add") == "device:add") = true := by
              decide
            simp [addMult, List.filter_cons, hb, hkm]
          · have hb : ((i' ++ ":add" : String) == "device:add") = false := by
              rw [beq_eq_false_iff_ne]
              intro hc
              exact hdev ((append_add_eq_device_iff i').mp hc)
            simp [addMult, hdev, List.filter_cons, hb, hkm]
        · have hcase : ¬(i = i' ∧ p = p') :=
            fun hc => hip ⟨hc.1.symm, hc.2.symm⟩
          have hnew : keyMatches i' p'
              { id := i, model := m, host := "localhost",
                deviceHost := "localhost", devicePort := p,
                dtype := (classify m).1, encoders := (classify m).2 } = false := by
            rw [Bool.eq_false_iff]
            intro hk
            have := (keyMatches_iff i' p' _).mp hk
            simp only [devKey] at this
            exact hcase ⟨congrArg Prod.fst this, congrArg Prod.snd this⟩
          have hev : (([((i ++ ":add" : String), i, p),
              (("device:add" : String), i, p)]).filter (fun e =>
              e.1 == "device:add" && e.2.1 == i' && e.2.2 == p')).length = 0 := by
            rcases not_and_or.mp hcase with hne | hne
            · simp [hne]
            · simp [hne]
          rw [hev]
          simp only [List.filter_cons, hnew, Bool.false_eq_true, if_false,
            List.filter_nil, List.length_nil]
          simpa using hx

theorem announce_devCount_self (s : SerialState) (i m : String) (p : ℤ)
    (h : SerialInv s) : devCount (announce s i m p) i p = 1 := by
  unfold announce
  cases hf : s.devices.find? (keyMatches i p) with
  | some d => exact find?_some_devCount s i p d h.1 hf
  | none =>
      have h0 := find?_none_devCount s i p hf
      unfold devCount at h0 ⊢
      simp only [List.filter_append, List.length_append, h0]
      have hkm : keyMatches i p
          { id := i, model := m, host := "localhost",
            deviceHost := "localhost", devicePort := p,
            dtype := (classify m).1, encoders := (classify m).2 } = true := by
        simp [keyMatches]
      simp [List.filter_cons, hkm]

theorem announce_devCount_keeps (s : SerialState) (i' m' : String) (p' : ℤ)
    (i : String) (p : ℤ) (h1 : devCount s i p = 1) :
    devCount (announce s i' m' p') i p = 1 := by
  unfold announce
  cases hf : s.devices.find? (keyMatches i' p') with
  | some d => exact h1
  | none =>
      have h0 := find?_none_devCount s i' p' hf
      have hne : ¬(i' = i ∧ p' = p) := by
        intro ⟨rfl, rfl⟩
        rw [h0] at h1
        exact absurd h1 (by decide)
      have hkm : keyMatches i p
          { id := i', model := m', host := "localhost",
            deviceHost := "localhost", devicePort := p',
            dtype := (classify m').1, encoders := (classify m').2 } = false := by
        rw [Bool.eq_false_iff]
        intro hk
        have hd := (keyMatches_iff i p _).mp hk
        simp only [devKey] at hd
        exact hne ⟨congrArg Prod.fst hd, congrArg Prod.snd hd⟩
      unfold devCount at h1 ⊢
      simp only [List.filter_append, List.length_append, List.filter_cons, hkm,
        Bool.false_eq_true, if_false, List.filter_nil, List.length_nil]
      simpa using h1

theorem foldl_announce_keeps (l : List (String × String × ℤ)) (s : SerialState)
    (hinv : SerialInv s) (i : String) (p : ℤ) (h1 : devCount s i p = 1) :
    devCount (l.foldl (fun s a => announce s a.1 a.2.1 a.2.2) s) i p = 1 := by
  induction l generalizing s with
  | nil => exact h1
  | cons a l' ih =>
      rw [List.foldl_cons]
      exact ih (announce s a.1 a.2.1 a.2.2)
        (announce_inv s a.1 a.2.1 a.2.2 hinv)
        (announce_devCount_keeps s a.1 a.2.1 a.2.2 i p h1)

theorem foldl_announce_inv (l : List (String × String × ℤ)) (s : SerialState)
    (hinv : SerialInv s) :
    SerialInv (l.foldl (fun s a => announce s a.1 a.2.1 a.2.2) s) := by
  induction l generalizing s with
  | nil => exact hinv
  | cons a l' ih =>
      rw [List.foldl_cons]
      exact ih _ (announce_inv s a.1 a.2.1 a.2.2 hinv)

theorem announceRun_counts (anns : List (String × String × ℤ)) :
    SerialInv (announceRun anns)
      ∧ ∀ a ∈ anns, devCount (announceRun anns) a.1 a.2.2 = 1 := by
  suffices hgen : ∀ (l : List (String × String × ℤ)) (s : SerialState),
      SerialInv s →
      SerialInv (l.foldl (fun s a => announce s a.1 a.2.1 a.2.2) s)
        ∧ ∀ a ∈ l,
            devCount (l.foldl (fun s a => announce s a.1 a.2.1 a.2.2) s)
              a.1 a.2.2 = 1 by
    exact hgen anns serialInit serialInv_init
  intro l
  induction l with
  | nil => intro s h; exact ⟨h, by simp⟩
  | cons a l' ih =>
      intro s h
      rw [List.foldl_cons]
      have hinv1 := announce_inv s a.1 a.2.1 a.2.2 h
      have hrec := ih (announce s a.1 a.2.1 a.2.2) hinv1
      refine ⟨hrec.1, ?_⟩
      intro b hb
      rcases List.mem_cons.mp hb with rfl | hb'
      · exact foldl_announce_keeps l' _ hinv1 b.1 b.2.2
          (announce_devCount_self s b.1 b.2.1 b.2.2 h)
      · exact hrec.2 b hb'

/-- Counterexample to claim C7 as stated: a device announced with the id
"device" produces two "device:add" notifications for its key (the
per-id event name `"device" ++ ":add"` collides with the generic event
name), so repeated announcements of that id yield one stored descriptor
but two "device added" events, not exactly one. -/
theorem C7_counterexample :
    devCount (announceRun [("device", "monome 64", 8000),
        ("device", "monome 64", 8000)]) "device" 8000 = 1
      ∧ addCount (announceRun [("device", "monome 64", 8000),
          ("device", "monome 64", 8000)]) "device" 8000 = 2 := by decide

/-- Amended C7: for any announcement sequence, the stored (id,
devicePort) keys are unique after every announcement and each announced
key is stored exactly once; the "device:add" event fires exactly once
per inserted key, except for the literal id "device", whose per-id event
name collides with the generic event name. -/
theorem C7_announce_dedup (anns : List (String × String × ℤ)) :
    ((announceRun anns).devices.map devKey).Nodup
      ∧ ∀ a ∈ anns,
          devCount (announceRun anns) a.1 a.2.2 = 1
            ∧ (a.1 ≠ "device" → addCount (announceRun anns) a.1 a.2.2 = 1) := by
  obtain ⟨hinv, hdev⟩ := announceRun_counts anns
  refine ⟨hinv.1, ?_⟩
  intro a ha
  refine ⟨hdev a ha, ?_⟩
  intro hne
  have := hinv.2 a.1 a.2.2
  rw [hdev a ha] at this
  simpa [addMult, hne] using this

/-- Witness for the amended C7: the same announcement delivered twice
stores one descriptor and fires one "device:add" event. -/
theorem C7_announce_dedup_witness :
    devCount (announceRun [("m64", "monome 64", 8000),
        ("m64", "monome 64", 8000)]) "m64" 8000 = 1
      ∧ addCount (announceRun [("m64", "monome 64", 8000),
          ("m64", "monome 64", 8000)]) "m64" 8000 = 1 := by
  have h := (C7_announce_dedup
    [("m64", "monome 64", 8000), ("m64", "monome 64", 8000)]).2
    ("m64", "monome 64", 8000) (by decide)
  exact ⟨h.1, h.2 (by decide)⟩

/-- Counterexample to claim C4 as stated: after a device-detached
notification for a stored device, the descriptor is still in the stored
device set — the `/serialosc/remove` handler never deletes it. -/
theorem C4_counterexample :
    ((removeMsg (announceRun [("m64", "monome 64", 8000)])
        "m64" "monome 64" 8000).devices.map devKey) = [("m64", 8000)]
      ∧ ("device:remove", "m64", (8000 : ℤ))
          ∈ (removeMsg (announceRun [("m64", "monome 64", 8000)])
              "m64" "monome 64" 8000).events := by decide

/-- Amended C4: on a device-detached notification, the stored device set
is unchanged (nothing is ever removed); if a descriptor with the (id,
devicePort) key is stored, the two remove events are emitted for it;
otherwise no event is emitted; in both cases `/serialosc/notify` is
re-sent to the daemon. -/
theorem C4_remove_behaviour (s : SerialState) (id model : String) (port : ℤ) :
    (removeMsg s id model port).devices = s.devices
      ∧ (removeMsg s id model port).sent = s.sent ++ ["/serialosc/notify"]
      ∧ ((∃ d ∈ s.devices, keyMatches id port d = true) →
          ∃ d, s.devices.find? (keyMatches id port) = some d
            ∧ d.id = id ∧ d.devicePort = port
            ∧ (removeMsg s id model port).events
                = s.events ++ [(d.id ++ ":remove", d.id, d.devicePort),
                    ("device:remove", d.id, d.devicePort)])
      ∧ ((∀ d ∈ s.devices, keyMatches id port d = false) →
          (removeMsg s id model port).events = s.events) := by
  unfold removeMsg
  cases hf : s.devices.find? (keyMatches id port) with
  | some d =>
      have hmatch := List.find?_some hf
      have hkey := (keyMatches_iff id port d).mp hmatch
      simp only [devKey] at hkey
      refine ⟨rfl, rfl, ?_, ?_⟩
      · intro _
        exact ⟨d, rfl, congrArg Prod.fst hkey, congrArg Prod.snd hkey, rfl⟩
      · intro hall
        have hmem := List.mem_of_find?_eq_some hf
        rw [hall d hmem] at hmatch
        cases hmatch
  | none =>
      refine ⟨rfl, rfl, ?_, fun _ => rfl⟩
      intro ⟨d, hd, hdm⟩
      have := List.find?_eq_none.mp hf d hd
      rw [hdm] at this
      cases this rfl

/-- Witness for the amended C4 at a stored device: descriptor kept,
remove events emitted, notify re-sent. -/
theorem C4_remove_behaviour_witness :
    (removeMsg (announceRun [("m64", "monome 64", 8000)])
        "m64" "monome 64" 8000).events
      = (announceRun [("m64", "monome 64", 8000)]).events
          ++ [("m64" ++ ":remove", "m64", (8000 : ℤ)),
              ("device:remove", "m64", (8000 : ℤ))] := by
  have h := C4_remove_behaviour (announceRun [("m64", "monome 64", 8000)])
    "m64" "monome 64" 8000
  obtain ⟨d, hfind, hid, hport, hev⟩ := h.2.2.1 (by decide)
  have hd : d = {
      id := "m64"
      model := "monome 64"
      host := "localhost"
      deviceHost := "localhost"
      devicePort := 8000
      dtype := "grid"
      encoders := none } := by
    have hcomp : (announceRun [("m64", "monome 64", 8000)]).devices.find?
        (keyMatches "m64" 8000) = some {
          id := "m64"
          model := "monome 64"
          host := "localhost"
          deviceHost := "localhost"
          devicePort := 8000
          dtype := "grid"
          encoders := none } := by decide
    rw [hcomp] at hfind
    exact (Option.some.injEq _ _).mp hfind.symm
  rw [hev, hd]

/-! ## Receiver and prefix-change theorems -/

/-- Evaluation of the code at the failing input of claim C3: a Grid
session whose prefix moved "/monome" → "/bar" → "/foo".  A message at
the new prefix "/foo/grid/key" reaches the key handler (first half of
the claim, which holds), but a message at the previous prefix
"/bar/grid/key" is STILL dispatched to the key handler, because
`OscReceiver.removeListener` only logs and removes nothing — refuting
the second half of the claim. -/
theorem C3_stale_prefix_dispatch :
    dispatchTo (gridPrefixMsg (gridPrefixMsg
        ⟨"/monome", ⟨true, true, []⟩⟩ "/bar") "/foo").recv "/foo/grid/key"
      = [gridKeyHandler]
      ∧ dispatchTo (gridPrefixMsg (gridPrefixMsg
          ⟨"/monome", ⟨true, true, []⟩⟩ "/bar") "/foo").recv "/bar/grid/key"
        = [gridKeyHandler] := by decide

/-- Evaluation of the code at the failing input of claim C6: `close()` on
a receiver with one registered subscription stops the loop, releases the
socket, is idempotent, and no datagram is dispatched afterwards — but
the subscription table is NOT cleared, because `removeAllListeners` only
logs, refuting the "clears all registered subscriptions" part. -/
theorem C6_close_keeps_subscriptions :
    (recvClose ⟨true, true, [("/serialosc/device", 7)]⟩).listeners
        = [("/serialosc/device", 7)]
      ∧ (recvClose ⟨true, true, [("/serialosc/device", 7)]⟩).isListening = false
      ∧ (recvClose ⟨true, true, [("/serialosc/device", 7)]⟩).socket = false
      ∧ recvClose (recvClose ⟨true, true, [("/serialosc/device", 7)]⟩)
          = recvClose ⟨true, true, [("/serialosc/device", 7)]⟩
      ∧ receiveStep (recvClose ⟨true, true, [("/serialosc/device", 7)]⟩)
          "/serialosc/device" = none := by decide

end Monome
